import Mathlib

/-!
Verification of the LSP client transport in `src/lsp_client.py` (pyrose).

The development shallowly embeds the Python source: JSON values become the
inductive `J`, Python strings become `String` or `List Char` (one entry per
code point, as Python's `len`/indexing see them), dictionaries become
association lists with Python's insertion-order/replace semantics, and the
`asyncio` state (pending `Future`s, the read loop) becomes explicit state
passing.  Fallible Python code (raising exceptions) returns `Option`/`Except`
values.  Constants of the missing `lsp_types` module (`ErrorCodes`,
`TextDocumentSyncKind`) are modelled from the spec.
-/

set_option maxHeartbeats 1000000

namespace Pyrose

/-- A JSON value, as produced by Python's `json.loads` / consumed by
`json.dumps`.  Numbers are modelled as integers (the protocol's ids and sync
kinds are integers; floats do not occur in the verified paths).  Objects keep
Python's dict insertion order. -/
inductive J where
  | null : J
  | bool : Bool → J
  | num : Int → J
  | str : String → J
  | arr : List J → J
  | obj : List (String × J) → J

/-- Python truthiness of a JSON value (`if value:`): `None`, `False`, `0`,
`""`, `[]` and `{}` are falsy. -/
def jTruthy : J → Bool
  | .null => false
  | .bool b => b
  | .num n => n != 0
  | .str s => s.length != 0
  | .arr xs => !xs.isEmpty
  | .obj kvs => !kvs.isEmpty

/-- `d.get(k)` on a JSON object's key/value list (first match, as in a dict
where keys are unique). -/
def jGet (kvs : List (String × J)) (k : String) : Option J :=
  match kvs with
  | [] => none
  | (k₀, v₀) :: rest => if k₀ = k then some v₀ else jGet rest k

/-- `k in d` on a JSON object's key/value list. -/
def jHasKey (kvs : List (String × J)) (k : String) : Bool :=
  (jGet kvs k).isSome

/-- Python dict assignment `d[k] = v` on a string-keyed dict: replace the
value in place if the key exists, otherwise append the pair at the end
(insertion order). -/
def pyDictSet {α : Type} (kvs : List (String × α)) (k : String) (v : α) :
    List (String × α) :=
  if (kvs.lookup k).isSome then kvs.map (fun p => if p.1 = k then (k, v) else p)
  else kvs ++ [(k, v)]

/-- Python dict deletion `del d[k]` on a string-keyed dict. -/
def pyDictDel {α : Type} (kvs : List (String × α)) (k : String) :
    List (String × α) :=
  kvs.filter (fun p => p.1 ≠ k)

/- ### Individual characters -/
/-- The double-quote character. -/
def quoteChar : Char := Char.ofNat 34

/-- The backslash character. -/
def backslashChar : Char := Char.ofNat 92

/-- The opening curly brace. -/
def lbraceChar : Char := Char.ofNat 123

/-- The closing curly brace. -/
def rbraceChar : Char := Char.ofNat 125

/- ### Decimal and hexadecimal printing (`str(n)`) -/
/-- One decimal digit as a character. -/
def digitChar : Nat → Char
  | 0 => '0' | 1 => '1' | 2 => '2' | 3 => '3' | 4 => '4'
  | 5 => '5' | 6 => '6' | 7 => '7' | 8 => '8' | 9 => '9'
  | _ => '?'

/-- One hexadecimal digit as a (lower-case) character. -/
def hexDigitChar : Nat → Char
  | 0 => '0' | 1 => '1' | 2 => '2' | 3 => '3' | 4 => '4'
  | 5 => '5' | 6 => '6' | 7 => '7' | 8 => '8' | 9 => '9'
  | 10 => 'a' | 11 => 'b' | 12 => 'c' | 13 => 'd' | 14 => 'e' | 15 => 'f'
  | _ => '?'

/-- Decimal digits of a positive number, most significant first (empty for
0); the fuel argument (any bound on the number of digits, e.g. the number
itself) keeps the recursion structural. -/
def natCharsAux : Nat → Nat → List Char
  | _, 0 => []
  | 0, _ + 1 => []
  | fuel + 1, n + 1 => natCharsAux fuel ((n + 1) / 10) ++ [digitChar ((n + 1) % 10)]

/-- Decimal digits of a positive number, most significant first (empty for 0). -/
def natChars (n : Nat) : List Char := natCharsAux n n

/-- Python `str(n)` for a natural number. -/
def natToChars (n : Nat) : List Char := if n = 0 then ['0'] else natChars n

/-- Python `str(i)` for an integer. -/
def intToChars (i : Int) : List Char :=
  if i < 0 then '-' :: natToChars i.natAbs else natToChars i.natAbs

/-- Four hex digits, as in the `\uXXXX` escapes of `json.dumps`. -/
def hex4 (n : Nat) : List Char :=
  [hexDigitChar (n / 4096 % 16), hexDigitChar (n / 256 % 16),
   hexDigitChar (n / 16 % 16), hexDigitChar (n % 16)]

/- ### `json.dumps` with its defaults (`ensure_ascii=True`,
     separators `", "` and `": "`) -/
/-- Escaping of one character inside a JSON string literal, following
CPython's `py_encode_basestring_ascii`: `"` and backslash get two-character
escapes, the common control characters get their short escapes, every other
character outside `0x20..0x7e` becomes `\uXXXX` (a surrogate pair above
`0xFFFF`), and printable ASCII passes through. -/
def escapeChar (c : Char) : List Char :=
  if c = quoteChar then [backslashChar, quoteChar]
  else if c = backslashChar then [backslashChar, backslashChar]
  else if c = '\n' then [backslashChar, 'n']
  else if c = '\r' then [backslashChar, 'r']
  else if c = '\t' then [backslashChar, 't']
  else if c = Char.ofNat 8 then [backslashChar, 'b']
  else if c = Char.ofNat 12 then [backslashChar, 'f']
  else if c.toNat < 32 || 126 < c.toNat then
    if c.toNat < 65536 then backslashChar :: 'u' :: hex4 c.toNat
    else
      (backslashChar :: 'u' :: hex4 (55296 + (c.toNat - 65536) / 1024)) ++
        (backslashChar :: 'u' :: hex4 (56320 + (c.toNat - 65536) % 1024))
  else [c]

/-- A JSON string literal: quote, escaped characters, quote. -/
def dumpStr (s : String) : List Char :=
  quoteChar :: (s.data.map escapeChar).flatten ++ [quoteChar]

/-- Comma-style joining of already-rendered pieces. -/
def sepJoin (sep : List Char) : List (List Char) → List Char
  | [] => []
  | [p] => p
  | p :: q :: rest => p ++ sep ++ sepJoin sep (q :: rest)

/-- `json.dumps(value)` with CPython's defaults, as a list of characters. -/
def jsonDumps : J → List Char
  | .null => "null".data
  | .bool true => "true".data
  | .bool false => "false".data
  | .num i => intToChars i
  | .str s => dumpStr s
  | .arr xs =>
      '[' :: sepJoin ", ".data (xs.attach.map fun x => jsonDumps x.1) ++ [']']
  | .obj kvs =>
      lbraceChar ::
        sepJoin ", ".data
          (kvs.attach.map fun p => dumpStr p.1.1 ++ ": ".data ++ jsonDumps p.1.2) ++
        [rbraceChar]
  termination_by j => sizeOf j
  decreasing_by
  · have := List.sizeOf_lt_of_mem x.2
    simp only [J.arr.sizeOf_spec]
    omega
  · have h1 := List.sizeOf_lt_of_mem p.2
    have h2 : sizeOf p.1.2 < sizeOf p.1 := by
      cases p.1 with
      | mk a b => simp
    simp only [J.obj.sizeOf_spec]
    omega

/- ### UTF-8 byte lengths -/
/-- Number of bytes of the UTF-8 encoding of one character. -/
def utf8Size (c : Char) : Nat :=
  if c.toNat < 128 then 1
  else if c.toNat < 2048 then 2
  else if c.toNat < 65536 then 3
  else 4

/-- Number of bytes of the UTF-8 encoding of a string (`len(s.encode())`). -/
def utf8ByteLen (s : List Char) : Nat := (s.map utf8Size).sum

/-- Pure-ASCII strings. -/
def Ascii (s : List Char) : Prop := ∀ c ∈ s, c.toNat < 128

instance (s : List Char) : Decidable (Ascii s) := by
  unfold Ascii
  infer_instance

namespace JsonRpcDispatcher

/-- `JsonRpcDispatcher._send` (lines 111-120): serialize the message and
frame it as `Content-Length: <len(content)>\r\n\r\n<content>`; the whole
string is then UTF-8 encoded onto the writer.  This is the only header line
the dispatcher ever writes. -/
def sendFrame (message : J) : List Char :=
  let content := jsonDumps message
  "Content-Length: ".data ++ natToChars content.length ++ "\r\n\r\n".data ++ content

end JsonRpcDispatcher

/- ### The dispatcher's pending-call table and read loop -/
/-- A raised Python exception, as surfaced to an awaiting caller. -/
inductive PyErr where
  | valueError (arg : J)
  | cancelled
  | assertionError
  | keyError
  | typeError

/-- The state of one `asyncio.Future` in `JsonRpcDispatcher._callbacks`:
`pending` until the read loop completes it, then holding the result of
`set_result` or the `ValueError` payload of `set_exception`. -/
inductive FutureState where
  | pending
  | result (v : J)
  | excepted (e : J)
  | invalid

namespace JsonRpcDispatcher

/-- Update the future stored under an existing key (the read loop's
`future.set_result` / `future.set_exception` mutate the future in place, so
the key set is unchanged). -/
def cbSet (cbs : List (Int × FutureState)) (i : Int) (f : FutureState) :
    List (Int × FutureState) :=
  cbs.map (fun p => if p.1 = i then (i, f) else p)

/-- Dict assignment `self._callbacks[id] = Future()`. -/
def cbInsert (cbs : List (Int × FutureState)) (i : Int) (f : FutureState) :
    List (Int × FutureState) :=
  if (cbs.lookup i).isSome then cbSet cbs i f else cbs ++ [(i, f)]

/-- Dict deletion `del self._callbacks[id]`. -/
def cbErase (cbs : List (Int × FutureState)) (i : Int) :
    List (Int × FutureState) :=
  cbs.filter (fun p => p.1 ≠ i)

/-- Dispatcher state: the id counter (`_callback_id`, initially 1), the
pending-call table (`_callbacks`) and whether an `on_notification` handler is
registered. -/
structure DispatchState where
  callbackId : Int
  callbacks : List (Int × FutureState)
  handlerSet : Bool

/-- One call of `send_error` observed on the wire (the payload it actually
serializes is modelled separately, see `send_error_payload`). -/
structure ErrorCall where
  code : Int
  message : String
  data : Option J

/-- `ErrorCodes.InvalidRequest` — modelled from the spec: `lsp_types` is not
in the repository snapshot; JSON-RPC 2.0 fixes this code. -/
def invalidRequestCode : Int := -32600

/-- `ErrorCodes.ParseError` — modelled from the spec: `lsp_types` is not in
the repository snapshot; JSON-RPC 2.0 fixes this code. -/
def parseErrorCode : Int := -32700

/-- `JsonRpcDispatcher.send`, first half (lines 61-72): reject an empty
method, allocate the next id, register a fresh pending future and build the
request payload.  The caller then suspends on the future. -/
def send (st : DispatchState) (method : String) (params : Option J) :
    Except PyErr (DispatchState × Int × J) :=
  if method = "" then .error (.valueError (.str "Method must be given a value"))
  else
    let i := st.callbackId
    let st' : DispatchState :=
      { st with callbackId := i + 1, callbacks := cbInsert st.callbacks i .pending }
    let payload : J := .obj
      [("jsonrpc", .str "2.0"), ("id", .num i), ("method", .str method),
       ("params", params.getD .null)]
    .ok (st', i, payload)

/-- Result of resuming the suspended second half of `send`. -/
inductive ResumeResult where
  | waiting
  | finished (outcome : Except PyErr J) (st : DispatchState)

/-- `JsonRpcDispatcher.send`, second half (lines 74-77): `data = await
self._callbacks[callback_id]`, then `del self._callbacks[callback_id]`,
then `return data`.  A completed future resumes the caller: on a result the
entry is deleted and the value returned; on an exception the `await` raises,
so the `del` line is skipped and the entry stays in the table. -/
def sendResume (st : DispatchState) (i : Int) : ResumeResult :=
  match st.callbacks.lookup i with
  | some .pending => .waiting
  | some (.result v) =>
      .finished (.ok v) { st with callbacks := cbErase st.callbacks i }
  | some (.excepted e) => .finished (.error (.valueError e)) st
  | some .invalid => .finished (.error (.valueError (.str "Invalid message"))) st
  | none => .waiting

/-- Python dict-key lookup of a JSON value in the int-keyed `_callbacks`
dict: only ints can match, and a Python `bool` equals the int `0`/`1`. -/
def lookupId : J → Option Int
  | .num n => some n
  | .bool b => some (if b then 1 else 0)
  | _ => none

/-- Outcome of the read loop handling one decoded message. -/
inductive StepResult where
  | crash
  | next (st : DispatchState) (errs : List ErrorCall) (notif : Option (J × Option J))

/-- Read-loop branch for a message carrying a truthy `id` (lines 130-139):
unknown ids are discarded; a pending future is completed with the `result`
value if that key is present, else with the `error` payload, else with the
generic invalid-message error.  Completing an already-completed future
raises `InvalidStateError` and kills the loop. -/
def responseStep (st : DispatchState) (kvs : List (String × J)) (idv : J) :
    StepResult :=
  match lookupId idv with
  | none => .next st [] none
  | some i =>
      match st.callbacks.lookup i with
      | none => .next st [] none
      | some .pending =>
          match jGet kvs "result" with
          | some v => .next { st with callbacks := cbSet st.callbacks i (.result v) } [] none
          | none =>
              match jGet kvs "error" with
              | some e =>
                  .next { st with callbacks := cbSet st.callbacks i (.excepted e) } [] none
              | none =>
                  .next { st with callbacks := cbSet st.callbacks i .invalid } [] none
      | some _ => .crash

/-- Read-loop branch for an id-less (or falsy-id) message (lines 140-142):
with a handler registered, `message["method"]` is forwarded — a `KeyError`
(and a dead loop) if the key is absent; with no handler, nothing happens. -/
def notifStep (st : DispatchState) (kvs : List (String × J)) : StepResult :=
  if st.handlerSet then
    match jGet kvs "method" with
    | some mth => .next st [] (some (mth, jGet kvs "params"))
    | none => .crash
  else .next st [] none

/-- The body of `_read_loop` (lines 122-143) for one decoded message:
non-`"2.0"` versions are answered with one `send_error` and skipped; truthy
ids go to the response branch, everything else to the notification branch.
`message.get` on a non-dict raises `AttributeError`. -/
def readLoopStep (st : DispatchState) (m : J) : StepResult :=
  match m with
  | .obj kvs =>
      match jGet kvs "jsonrpc" with
      | some (.str v) =>
          if v = "2.0" then
            match jGet kvs "id" with
            | some idv =>
                if jTruthy idv then responseStep st kvs idv else notifStep st kvs
            | none => notifStep st kvs
          else .next st [⟨invalidRequestCode, "Invalid JSON-RPC version", none⟩] none
      | _ => .next st [⟨invalidRequestCode, "Invalid JSON-RPC version", none⟩] none
  | _ => .crash

/-- The read loop over a list of already-decoded messages, tracking only the
dispatcher state (`none` = the loop task died on an exception). -/
def readLoopMany (st : DispatchState) : List J → Option DispatchState
  | [] => some st
  | m :: rest =>
      match readLoopStep st m with
      | .crash => none
      | .next st' _ _ => readLoopMany st' rest

end JsonRpcDispatcher

/- ### Classifying well-formed responses -/
/-- A well-formed JSON-RPC response: version `"2.0"`, a truthy integer id,
and at least one of `result`/`error`. -/
def isGoodResponse (m : J) : Bool :=
  match m with
  | .obj kvs =>
      (match jGet kvs "jsonrpc" with | some (.str s) => s = "2.0" | _ => false) &&
      (match jGet kvs "id" with | some (.num n) => n != 0 | _ => false) &&
      (jHasKey kvs "result" || jHasKey kvs "error")
  | _ => false

/-- A response shape with version `"2.0"` and a truthy integer id (the
`result`/`error` keys may both be absent). -/
def isIdResponse (m : J) : Bool :=
  match m with
  | .obj kvs =>
      (match jGet kvs "jsonrpc" with | some (.str s) => s = "2.0" | _ => false) &&
      (match jGet kvs "id" with | some (.num n) => n != 0 | _ => false)
  | _ => false

/-- The id a response carries. -/
def respId (m : J) : Int :=
  match m with
  | .obj kvs => match jGet kvs "id" with | some (.num n) => n | _ => 0
  | _ => 0

/-- Whether a response carries a `result` key. -/
def respHasResult (m : J) : Bool :=
  match m with
  | .obj kvs => jHasKey kvs "result"
  | _ => false

/-- The future state the read loop stores for a response: the `result` value
if present, else the `error` payload, else the invalid-message failure. -/
def respOutcome (m : J) : FutureState :=
  match m with
  | .obj kvs =>
      match jGet kvs "result" with
      | some v => .result v
      | none =>
          match jGet kvs "error" with
          | some e => .excepted e
          | none => .invalid
  | _ => .invalid

/-- What the suspended `send` call delivers once its future holds the given
response's outcome. -/
def respDelivered (m : J) : Except PyErr J :=
  match respOutcome m with
  | .result v => .ok v
  | .excepted e => .error (.valueError e)
  | _ => .error (.valueError (.str "Invalid message"))

/-- All messages in the list are well-formed responses. -/
def goodResponses (msgs : List J) : Bool := msgs.all isGoodResponse

/-- The table holds a pending future under this id. -/
def pendingAt (st : JsonRpcDispatcher.DispatchState) (i : Int) : Bool :=
  match st.callbacks.lookup i with
  | some .pending => true
  | _ => false

/-- Every listed response's id has a pending entry in the table. -/
def allPending (st : JsonRpcDispatcher.DispatchState) (msgs : List J) : Bool :=
  msgs.all fun m => pendingAt st (respId m)

open JsonRpcDispatcher

/-- Initial table for the C1 witness scenario: requests 1 and 2 in flight. -/
def c1State : DispatchState := ⟨3, [(1, .pending), (2, .pending)], false⟩

/-- Response to request 2, arriving first (out of send order). -/
def c1RespTwo : J :=
  .obj [("jsonrpc", .str "2.0"), ("id", .num 2), ("result", .str "late")]

/-- Response to request 1, arriving second, and failing the call. -/
def c1RespOne : J :=
  .obj [("jsonrpc", .str "2.0"), ("id", .num 1), ("error", .str "boom")]

/-- Dispatcher state for the C4 scenarios: request 1 pending. -/
def c4State : DispatchState := ⟨2, [(1, .pending)], false⟩

/-- A successful response to request 1. -/
def c4RespOk : J :=
  .obj [("jsonrpc", .str "2.0"), ("id", .num 1), ("result", .null)]

/-- The error payload of the C4 counterexample response. -/
def c4ErrPayload : J := .obj [("code", .num (-1)), ("message", .str "busy")]

/-- An error response to request 1. -/
def c4RespErr : J :=
  .obj [("jsonrpc", .str "2.0"), ("id", .num 1), ("error", c4ErrPayload)]

/- ### The session layer (`LspClient`): documents, sync kinds, the lazy
     whole-document diff, and the work-done-token bookkeeping -/
/-- An LSP position dict `{"line": l, "character": c}`. -/
structure Position where
  line : Nat
  character : Nat
  deriving DecidableEq

/-- An LSP range dict `{"start": s, "end": e}` (the `end` key is named
`endPos` here because `end` is reserved in Lean). -/
structure Range where
  startPos : Position
  endPos : Position
  deriving DecidableEq

/-- One entry of `contentChanges`: either a ranged edit
`{"range": r, "text": t}` or a whole-document replacement `{"text": t}`. -/
inductive TextDocumentContentChangeEvent where
  | ranged (range : Range) (text : List Char)
  | full (text : List Char)
  deriving DecidableEq

/-- Python `str.splitlines` restricted to `"\n"` line boundaries (the only
boundary character occurring in the verified scenarios): split on every
newline and drop a final empty piece, so `"a\n"` gives `["a"]` and `""`
gives `[]`. -/
def splitlinesAux (acc : List Char) : List Char → List (List Char)
  | [] => if acc.isEmpty then [] else [acc.reverse]
  | c :: rest =>
      if c = '\n' then acc.reverse :: splitlinesAux [] rest
      else splitlinesAux (c :: acc) rest

/-- Python `s.splitlines()`. -/
def splitlines (s : List Char) : List (List Char) := splitlinesAux [] s

/-- `len(lines[-1]) if lines else 0`. -/
def lastLineLen (lines : List (List Char)) : Nat :=
  match lines.getLast? with
  | some l => l.length
  | none => 0

/-- The range both branches of `get_lazy_cheat_diff` build: from
`{"line": 0, "character": 0}` to `{"line": len(lines), "character":
len(lines[-1])}` of the given text. -/
def wholeRange (s : List Char) : Range :=
  let lines := splitlines s
  ⟨⟨0, 0⟩, ⟨lines.length, lastLineLen lines⟩⟩

/-- `get_lazy_cheat_diff` (lines 309-346): a delete of the whole old text
(when non-empty) followed by an insert of the whole new text (when
non-empty). -/
def get_lazy_cheat_diff (string_old string_new : List Char) :
    List TextDocumentContentChangeEvent :=
  (if string_old = [] then [] else [.ranged (wholeRange string_old) []]) ++
    (if string_new = [] then [] else [.ranged (wholeRange string_new) string_new])

/- ### Standard LSP semantics of applying content changes (used to state
     the "net effect" part of the incremental-sync claim) -/
/-- Character offset of LSP position `(line, character)` given the line
decomposition of a text; positions past the last line land past the text
and are clamped by `posToOffset`. -/
def offInLines : List (List Char) → Nat → Nat → Nat
  | _, 0, ch => ch
  | [], _ + 1, ch => ch
  | l :: ls, line + 1, ch => l.length + 1 + offInLines ls line ch

/-- Character offset of an LSP position in a text, clamped to the text. -/
def posToOffset (t : List Char) (p : Position) : Nat :=
  min (offInLines (splitlines t) p.line p.character) t.length

/-- Apply one content change to a document text (LSP semantics: replace the
ranged span, or the whole document for an un-ranged change). -/
def applyChange (t : List Char) : TextDocumentContentChangeEvent → List Char
  | .full s => s
  | .ranged r s =>
      t.take (posToOffset t r.startPos) ++ s ++ t.drop (posToOffset t r.endPos)

/-- Apply a `contentChanges` list in order. -/
def applyChanges (t : List Char) (cs : List TextDocumentContentChangeEvent) :
    List Char :=
  cs.foldl applyChange t

namespace LspClient

/-- Per-URI document record `{"text": ..., "version": ...}`; note that
`update_document` never writes the `text` field back. -/
structure DocState where
  text : List Char
  version : Int
  deriving DecidableEq

/-- The `LspClient` state the verified operations touch: the `_documents`
dict, the `server_capabilities` snapshot (`None` before `initialize`) and
the `work_progress` token dict (whose values are always `None`). -/
structure ClientState where
  documents : List (String × DocState)
  serverCapabilities : Option J
  workProgress : List (String × J)

/-- The `textDocument/didOpen` parameters the source builds (the fixed
`languageId` is omitted). -/
structure DidOpenParams where
  uri : String
  version : Int
  text : List Char

/-- The `textDocument/didChange` parameters the source builds. -/
structure DidChangeParams where
  uri : String
  version : Int
  contentChanges : List TextDocumentContentChangeEvent

/-- `LspClient.open_document` (lines 219-240): reject an already-tracked
URI, otherwise store `{"text": text, "version": 0}` and send `didOpen` with
version 0 and the full text. -/
def open_document (st : ClientState) (uri : String) (text : List Char) :
    Except PyErr (ClientState × DidOpenParams) :=
  if (st.documents.lookup uri).isSome then
    .error (.valueError (.str "URI already exist"))
  else
    .ok ({ st with documents := pyDictSet st.documents uri ⟨text, 0⟩ },
      ⟨uri, 0, text⟩)

/-- The negotiated sync kind: `server_capabilities["textDocumentSync"]`
when the capabilities dict is present and carries an integer there.
The numeric values 0/1/2 for None/Full/Incremental are modelled from the
spec: the `lsp_types` module defining `TextDocumentSyncKind` is not in the
repository snapshot. -/
def capsSync (st : ClientState) : Option Int :=
  match st.serverCapabilities with
  | some (.obj ckvs) =>
      match jGet ckvs "textDocumentSync" with
      | some (.num n) => some n
      | _ => none
  | _ => none

/-- `LspClient.update_document` (lines 257-289): reject an untracked URI;
assert capabilities are present; build `contentChanges` by the negotiated
sync kind (`[]` for None as well as for any unrecognized kind, one
whole-text change for Full, `get_lazy_cheat_diff` for Incremental); bump
the version by 1 (the stored text is NOT updated); send `didChange` with
the new version. -/
def update_document (st : ClientState) (uri : String) (text : List Char) :
    Except PyErr (ClientState × DidChangeParams) :=
  match st.documents.lookup uri with
  | none => .error (.valueError (.str "URI does not exist"))
  | some document =>
      match st.serverCapabilities with
      | none => .error .assertionError
      | some caps =>
          match caps with
          | .obj ckvs =>
              match jGet ckvs "textDocumentSync" with
              | none => .error .keyError
              | some sync =>
                  let content_changes : List TextDocumentContentChangeEvent :=
                    match sync with
                    | .num 0 => []
                    | .num 1 => [.full text]
                    | .num 2 => get_lazy_cheat_diff document.text text
                    | _ => []
                  let document' : DocState :=
                    { document with version := document.version + 1 }
                  .ok ({ st with documents := pyDictSet st.documents uri document' },
                    ⟨uri, document'.version, content_changes⟩)
          | _ => .error .typeError

/-- The `params` argument of a request: `None`, an `LSPArray` or an
`LSPObject` (only the last is a `Mapping`). -/
inductive PyParams where
  | noneP
  | arrP (xs : List J)
  | objP (kvs : List (String × J))

/-- The key/value pairs of a mapping `params` (empty otherwise). -/
def paramsKvs : PyParams → List (String × J)
  | .objP kvs => kvs
  | _ => []

/-- `params["workDoneToken"] = work_done_token`, applied only when `params`
is a `Mapping` (line 302-303) — the caller's own object is mutated. -/
def insertToken (params : PyParams) (token : String) : PyParams :=
  match params with
  | .objP kvs => .objP (pyDictSet kvs "workDoneToken" (.str token))
  | p => p

/-- Everything observable about one `LspClient._send` call. -/
structure LspSendResult where
  result : Except PyErr J
  state : ClientState
  sentParams : PyParams
  callerParams : PyParams

/-- `LspClient._send` (lines 297-306): store a fresh token in
`work_progress`, insert it into mapping `params` in place, forward to
`Dispatcher.send` (whose outcome is the `outcome` argument), and on a
successful result delete the token; when `send` raises, the `del` line is
skipped, so the token entry stays.  `sentParams` is the object passed to
the dispatcher and `callerParams` the caller's object afterwards — the same
mutated object. -/
def lspSend (st : ClientState) (token : String) (params : PyParams)
    (outcome : Except PyErr J) : LspSendResult :=
  let wp1 := pyDictSet st.workProgress token .null
  let params' := insertToken params token
  match outcome with
  | .ok r =>
      ⟨.ok r, { st with workProgress := pyDictDel wp1 token }, params', params'⟩
  | .error e =>
      ⟨.error e, { st with workProgress := wp1 }, params', params'⟩

end LspClient

/- ### `send_notification` and `send_error` payloads -/
/-- The message dict `JsonRpcDispatcher.send_notification` builds (lines
106-108): `{"jsonrpc": "2.0", "method": method}` plus `params` when not
`None`; no `id` key is ever added and no emptiness check is performed. -/
def notificationMessage (method : String) (params : Option J) :
    List (String × J) :=
  let message := [("jsonrpc", J.str "2.0"), ("method", J.str method)]
  match params with
  | some p => pyDictSet message "params" p
  | none => message

/-- `JsonRpcDispatcher.send_notification` (lines 94-109): despite its
docstring ("Raises ValueError: If method is empty or None"), the body
performs no check and always writes the frame. -/
def send_notification (method : String) (params : Option J) :
    Except PyErr (List Char) :=
  .ok (JsonRpcDispatcher.sendFrame (.obj (notificationMessage method params)))

/-- A Python dict key as it occurs in `send_error`'s payload: the dict
literal `{code: code, message: message}` uses the VALUES of the variables
`code` (an int) and `message` (a str) as keys. -/
inductive PyKey where
  | pint (i : Int)
  | pstr (s : String)
  deriving DecidableEq

/-- Dict assignment on a mixed-key dict. -/
def pyKeyDictSet (kvs : List (PyKey × J)) (k : PyKey) (v : J) :
    List (PyKey × J) :=
  if (kvs.lookup k).isSome then kvs.map (fun p => if p.1 = k then (k, v) else p)
  else kvs ++ [(k, v)]

/-- The payload dict `JsonRpcDispatcher.send_error` builds (lines 89-91):
`payload = {code: code, message: message}` — keyed by the error code and
the message text themselves, NOT by the strings `"code"`/`"message"` —
plus `payload["data"] = data` when `data` is truthy. -/
def send_error_payload (code : Int) (message : String) (data : Option J) :
    List (PyKey × J) :=
  let payload := pyKeyDictSet
    (pyKeyDictSet [] (.pint code) (.num code)) (.pstr message) (.str message)
  match data with
  | some d => if jTruthy d then pyKeyDictSet payload (.pstr "data") d else payload
  | none => payload

/-- How `json.dumps` renders a dict key: ints are converted to their
decimal string. -/
def pyKeyStr : PyKey → String
  | .pint i => ⟨intToChars i⟩
  | .pstr s => s

/-- The JSON object `send_error` passes to `_send`. -/
def send_error_message (code : Int) (message : String) (data : Option J) : J :=
  .obj ((send_error_payload code message data).map fun p => (pyKeyStr p.1, p.2))

/- ### Offsets of the whole-document ranges built by `get_lazy_cheat_diff` -/
/-- Total rendered length of a line decomposition, counting one newline per
line. -/
def linesTotalLen (ls : List (List Char)) : Nat :=
  (ls.map (fun l => l.length + 1)).sum

/-- Client state for the C5 witness after opening `"u"`. -/
def c5OpenedState : LspClient.ClientState := ⟨[("u", ⟨"x".data, 0⟩)], none, []⟩

/-- Client state for the C5 update scenario: `"u"` tracked at version 0,
Full sync negotiated. -/
def c5UpdState : LspClient.ClientState :=
  ⟨[("u", ⟨"ab".data, 0⟩)], some (.obj [("textDocumentSync", .num 1)]), []⟩

/-- Client state after the C5 update. -/
def c5UpdStateAfter : LspClient.ClientState :=
  ⟨[("u", ⟨"ab".data, 1⟩)], some (.obj [("textDocumentSync", .num 1)]), []⟩

/-- Client state for the C6 witness: `"u"` tracked with text `"ab"`,
Incremental sync negotiated. -/
def c6State : LspClient.ClientState :=
  ⟨[("u", ⟨"ab".data, 0⟩)], some (.obj [("textDocumentSync", .num 2)]), []⟩

/-- The C6 witness document record before the update. -/
def c6Doc : LspClient.DocState := ⟨"ab".data, 0⟩

/-- The client state the C6 witness expects after the update. -/
def c6StateAfter : LspClient.ClientState :=
  { c6State with
    documents := pyDictSet c6State.documents "u" { c6Doc with version := 0 + 1 } }

/- ### The byte-level reader: `_read_messages` (lines 145-179)

The inbound stream is modelled as a `List Char` of bytes.  `readline`,
`readexactly` and `at_eof` mirror `asyncio.StreamReader`; header parsing
mirrors `line.decode("ascii").rstrip().split(":")` — including its crash
modes (non-ASCII bytes, and a line whose `split(":")` does not yield
exactly two pieces).  `json.loads` is modelled by a small recursive JSON
parser (`jsonParseFull`): objects, arrays, strings with the common escapes,
integers, the three literals; exotic inputs it rejects simply count as
parse failures. -/
/-- `StreamReader.readline`: up to and including the next newline (the
whole remainder at end of stream). -/
def readline : List Char → List Char × List Char
  | [] => ([], [])
  | c :: rest =>
      if c = '\n' then ([c], rest)
      else
        let p := readline rest
        (c :: p.1, p.2)

/-- The whitespace set of Python's `str.strip` family. -/
def isPySpace (c : Char) : Bool :=
  c = ' ' || c = '\t' || c = '\n' || c = '\r' || c = Char.ofNat 11 ||
    c = Char.ofNat 12

/-- Python `str.rstrip()`. -/
def rstrip (s : List Char) : List Char :=
  (s.reverse.dropWhile isPySpace).reverse

/-- Python `str.lstrip()`. -/
def lstrip (s : List Char) : List Char := s.dropWhile isPySpace

/-- `bytes.decode("ascii")`: fails (`UnicodeDecodeError`) on a byte
outside ASCII. -/
def decodeAscii (s : List Char) : Option (List Char) :=
  if s.all (fun c => c.toNat < 128) then some s else none

/-- Python `str.split(":")` — split on EVERY colon (no maxsplit). -/
def splitColonAux (acc : List Char) : List Char → List (List Char)
  | [] => [acc.reverse]
  | c :: rest =>
      if c = ':' then acc.reverse :: splitColonAux [] rest
      else splitColonAux (c :: acc) rest

/-- Python `s.split(":")`. -/
def splitColon (s : List Char) : List (List Char) := splitColonAux [] s

/-- `name, value = line.decode("ascii").rstrip().split(":")` — `none` is an
uncaught exception (decode failure, or an unpack failure when the split
does not have exactly two pieces, e.g. a value containing an extra colon,
or a line with no colon at all). -/
def parseHeaderLine (line : List Char) : Option (List Char × List Char) :=
  match decodeAscii line with
  | none => none
  | some s =>
      match splitColon (rstrip s) with
      | [name, value] => some (name, value)
      | _ => none

/-- One digit character. -/
def isDigitChar (c : Char) : Bool := 48 ≤ c.toNat && c.toNat ≤ 57

/-- Accumulate decimal digits (`none` on a non-digit). -/
def parseDigitsAux (acc : Nat) : List Char → Option Nat
  | [] => some acc
  | c :: rest =>
      if isDigitChar c then parseDigitsAux (acc * 10 + (c.toNat - 48)) rest
      else none

/-- Python `int(s)` restricted to an optional sign followed by digits
(underscore grouping and surrounding whitespace are not modelled; the
values reaching it here are already stripped). `none` is a `ValueError`. -/
def parseInt (s : List Char) : Option Int :=
  match s with
  | [] => none
  | c :: rest =>
      if c = '-' then
        if rest.isEmpty then none
        else (parseDigitsAux 0 rest).map (fun m => -(m : Int))
      else if c = '+' then
        if rest.isEmpty then none
        else (parseDigitsAux 0 rest).map (fun m => (m : Int))
      else (parseDigitsAux 0 s).map (fun m => (m : Int))

/-- `StreamReader.readexactly n`: exactly `n` bytes, or an
`IncompleteReadError` (`none`) when the stream is shorter. -/
def readexactly (n : Nat) (s : List Char) : Option (List Char × List Char) :=
  if s.length < n then none else some (s.take n, s.drop n)

/-- Python `pattern in s` for strings: contiguous substring test. -/
def containsSeq (pat s : List Char) : Bool :=
  (List.range (s.length + 1)).any (fun i => pat.isPrefixOf (s.drop i))

/- #### A small model of `json.loads` -/
/-- Skip JSON whitespace. -/
def skipWs (s : List Char) : List Char :=
  s.dropWhile (fun c => c = ' ' || c = '\t' || c = '\n' || c = '\r')

/-- The body of a JSON string literal after the opening quote, with the
common escapes; returns the decoded characters and the remainder after the
closing quote. -/
def jpString : List Char → Option (List Char × List Char)
  | [] => none
  | c :: rest =>
      if c = quoteChar then some ([], rest)
      else if c = backslashChar then
        match rest with
        | [] => none
        | e :: rest₂ =>
            match
              (if e = quoteChar then some quoteChar
               else if e = backslashChar then some backslashChar
               else if e = '/' then some '/'
               else if e = 'n' then some '\n'
               else if e = 't' then some '\t'
               else if e = 'r' then some '\r'
               else none) with
            | some d => (jpString rest₂).map (fun p => (d :: p.1, p.2))
            | none => none
      else (jpString rest).map (fun p => (c :: p.1, p.2))

/-- A run of decimal digits as a number, with the remainder. -/
def jpNum (s : List Char) : Option (Nat × List Char) :=
  let ds := s.takeWhile isDigitChar
  if ds.isEmpty then none
  else
    match parseDigitsAux 0 ds with
    | some m => some (m, s.dropWhile isDigitChar)
    | none => none

mutual

/-- Parse one JSON value. -/
def jpVal : Nat → List Char → Option (J × List Char)
  | 0, _ => none
  | fuel + 1, s =>
      match skipWs s with
      | [] => none
      | c :: rest =>
          if c = 'n' then
            if "ull".data.isPrefixOf rest then some (.null, rest.drop 3) else none
          else if c = 't' then
            if "rue".data.isPrefixOf rest then some (.bool true, rest.drop 3)
            else none
          else if c = 'f' then
            if "alse".data.isPrefixOf rest then some (.bool false, rest.drop 4)
            else none
          else if c = quoteChar then
            match jpString rest with
            | some (cs, r) => some (.str ⟨cs⟩, r)
            | none => none
          else if c = '-' then
            match jpNum rest with
            | some (m, r) => some (.num (-(m : Int)), r)
            | none => none
          else if isDigitChar c then
            match jpNum (c :: rest) with
            | some (m, r) => some (.num (m : Int), r)
            | none => none
          else if c = '[' then jpArrTail fuel rest
          else if c = lbraceChar then jpObjTail fuel rest
          else none

/-- The remainder of an array after `[`. -/
def jpArrTail : Nat → List Char → Option (J × List Char)
  | 0, _ => none
  | fuel + 1, s =>
      match skipWs s with
      | ']' :: rest => some (.arr [], rest)
      | _ =>
          match jpVal fuel (skipWs s) with
          | some (v, r) => jpArrRest fuel [v] r
          | none => none

/-- Further array elements (accumulated in reverse). -/
def jpArrRest : Nat → List J → List Char → Option (J × List Char)
  | 0, _, _ => none
  | fuel + 1, acc, s =>
      match skipWs s with
      | ',' :: rest =>
          match jpVal fuel rest with
          | some (v, r) => jpArrRest fuel (v :: acc) r
          | none => none
      | ']' :: rest => some (.arr acc.reverse, rest)
      | _ => none

/-- The remainder of an object after the opening brace. -/
def jpObjTail : Nat → List Char → Option (J × List Char)
  | 0, _ => none
  | fuel + 1, s =>
      match skipWs s with
      | [] => none
      | c :: rest =>
          if c = rbraceChar then some (.obj [], rest)
          else jpObjMembers fuel [] (c :: rest)

/-- Object members, expecting a key string next (accumulated in reverse). -/
def jpObjMembers : Nat → List (String × J) → List Char → Option (J × List Char)
  | 0, _, _ => none
  | fuel + 1, acc, s =>
      match skipWs s with
      | [] => none
      | c :: rest =>
          if c = quoteChar then
            match jpString rest with
            | some (k, r) =>
                match skipWs r with
                | ':' :: r₂ =>
                    match jpVal fuel r₂ with
                    | some (v, r₃) => jpObjSep fuel ((⟨k⟩, v) :: acc) r₃
                    | none => none
                | _ => none
            | none => none
          else none

/-- After an object member: a comma continues, a closing brace ends. -/
def jpObjSep : Nat → List (String × J) → List Char → Option (J × List Char)
  | 0, _, _ => none
  | fuel + 1, acc, s =>
      match skipWs s with
      | [] => none
      | c :: rest =>
          if c = ',' then jpObjMembers fuel acc rest
          else if c = rbraceChar then some (.obj acc.reverse, rest)
          else none

end

/-- `json.loads(body)`: parse one value and require only whitespace after
it; `none` is a `JSONDecodeError`. -/
def jsonParseFull (s : List Char) : Option J :=
  match jpVal (2 * s.length + 2) s with
  | some (j, r) => if (skipWs r).isEmpty then some j else none
  | none => none

namespace JsonRpcDispatcher

/-- The headers dict accumulated by the inner `while True` loop. -/
abbrev Headers := List (String × List Char)

/-- The header-reading loop (lines 147-153), fuelled: read lines until the
blank `b"\r\n"` line, storing `headers[name] = value.lstrip()`; `none` is
an uncaught exception from `parseHeaderLine` (which also covers hitting end
of stream mid-headers, where `readline` returns `b""`). -/
def headerLoopF : Nat → List Char → Headers → Option (Headers × List Char)
  | 0, _, _ => none
  | fuel + 1, s, hs =>
      match s with
      | [] => none
      | _ :: _ =>
          if (readline s).1 = ['\r', '\n'] then some (hs, (readline s).2)
          else
            match parseHeaderLine (readline s).1 with
            | none => none
            | some nv =>
                headerLoopF fuel (readline s).2 (pyDictSet hs ⟨nv.1⟩ (lstrip nv.2))

/-- The header-reading loop; the stream length bounds the number of lines. -/
def headerLoop (s : List Char) (hs : Headers) : Option (Headers × List Char) :=
  headerLoopF (s.length + 1) s hs

/-- What one iteration of the outer `while` of `_read_messages` does. -/
inductive ReadOne where
  | crash
  | yielded (errs : List ErrorCall) (msg : J) (rest : List Char)
  | skipped (errs : List ErrorCall) (rest : List Char)

/-- The Content-Length half of an iteration (lines 163-178): a missing (or
falsy) header yields one invalid-request error and continues; otherwise
`int(value)` (crash on failure), `readexactly` (crash at end of stream, and
on a negative length), then `json.loads` — a parse failure yields one parse
error and continues, success yields the message.  (The `data` passed with
the parse error is `e.msg`, modelled as a fixed string.) -/
def contentLengthStep (headers : Headers) (rest : List Char) : ReadOne :=
  match headers.lookup "Content-Length" with
  | some v =>
      if v.isEmpty then
        .skipped [⟨invalidRequestCode, "Missing Content-Length header", none⟩] rest
      else
        match parseInt v with
        | none => .crash
        | some n =>
            if n < 0 then .crash
            else
              match readexactly n.toNat rest with
              | none => .crash
              | some (body, rest₂) =>
                  match jsonParseFull body with
                  | some j => .yielded [] j rest₂
                  | none =>
                      .skipped
                        [⟨parseErrorCode, "Could not deserialize JSON",
                          some (.str "parse error")⟩] rest₂
  | none =>
      .skipped [⟨invalidRequestCode, "Missing Content-Length header", none⟩] rest

/-- One iteration of the outer `while` of `_read_messages` on a non-empty
stream (lines 147-178): read headers; an untruthy-or-utf-8 `Content-Type`
falls through to the Content-Length half, any other `Content-Type` yields
one invalid-request error and continues at the byte after the blank line
(the rejected message's body bytes, if any, are NOT skipped). -/
def readOne (s : List Char) : ReadOne :=
  match headerLoop s [] with
  | none => .crash
  | some (headers, rest) =>
      match headers.lookup "Content-Type" with
      | some v =>
          if v.isEmpty then contentLengthStep headers rest
          else if containsSeq "utf-8".data v then contentLengthStep headers rest
          else
            .skipped [⟨invalidRequestCode, "Unexpected Content-Type header", none⟩]
              rest
      | none => contentLengthStep headers rest

/-- The read loop `_read_loop` driving `_read_messages` (fuelled): at end
of stream the generator and hence the loop end cleanly (`some` final
state); an uncaught exception kills the loop task (`none`).  The second
component collects every `send_error` call made along the way. -/
def runLoop : Nat → List Char → DispatchState → Option DispatchState × List ErrorCall
  | 0, _, _ => (none, [])
  | fuel + 1, s, st =>
      if s.isEmpty then (some st, [])
      else
        match readOne s with
        | .crash => (none, [])
        | .skipped errs rest =>
            let p := runLoop fuel rest st
            (p.1, errs ++ p.2)
        | .yielded errs m rest =>
            match readLoopStep st m with
            | .crash => (none, errs)
            | .next st₂ errs₂ _ =>
                let p := runLoop fuel rest st₂
                (p.1, errs ++ errs₂ ++ p.2)

/-- The read loop on a whole stream; the stream length bounds the number of
messages. -/
def runReadLoop (s : List Char) (st : DispatchState) :
    Option DispatchState × List ErrorCall :=
  runLoop (s.length + 1) s st

end JsonRpcDispatcher

/-- A message whose `jsonrpc` field (as `message.get` sees it) is not the
string `"2.0"`. -/
def badVersion (kvs : List (String × J)) : Bool :=
  match jGet kvs "jsonrpc" with
  | some (.str s) => !(s = "2.0")
  | _ => true

theorem utf8ByteLen_eq_length_of_ascii {s : List Char} (h : Ascii s) :
    utf8ByteLen s = s.length := by
  induction s with
  | nil => rfl
  | cons c rest ih =>
      have hc : utf8Size c = 1 := by
        unfold utf8Size
        rw [if_pos (h c (List.mem_cons_self c rest))]
      have hr := ih (fun c hc => h c (List.mem_cons_of_mem _ hc))
      simp only [utf8ByteLen, List.map_cons, List.sum_cons, hc, List.length_cons]
      simp only [utf8ByteLen] at hr
      omega

theorem ascii_append {a b : List Char} (ha : Ascii a) (hb : Ascii b) :
    Ascii (a ++ b) := by
  intro c hc
  rcases List.mem_append.mp hc with h | h
  · exact ha c h
  · exact hb c h

theorem ascii_digitChar (d : Nat) : (digitChar d).toNat < 128 := by
  unfold digitChar
  split <;> decide

theorem ascii_hexDigitChar (d : Nat) : (hexDigitChar d).toNat < 128 := by
  unfold hexDigitChar
  split <;> decide

theorem ascii_natCharsAux (fuel n : Nat) : Ascii (natCharsAux fuel n) := by
  induction fuel generalizing n with
  | zero =>
      match n with
      | 0 => intro c hc; simp [natCharsAux] at hc
      | m + 1 => intro c hc; simp [natCharsAux] at hc
  | succ fuel ih =>
      match n with
      | 0 => intro c hc; simp [natCharsAux] at hc
      | m + 1 =>
          rw [natCharsAux]
          refine ascii_append (ih ((m + 1) / 10)) ?_
          intro c hc
          rw [List.mem_singleton] at hc
          subst hc
          exact ascii_digitChar _

theorem ascii_natChars (n : Nat) : Ascii (natChars n) := ascii_natCharsAux n n

theorem ascii_natToChars (n : Nat) : Ascii (natToChars n) := by
  unfold natToChars
  split
  · decide
  · exact ascii_natChars n

theorem ascii_intToChars (i : Int) : Ascii (intToChars i) := by
  unfold intToChars
  split
  · intro c hc
    rcases List.mem_cons.mp hc with h | h
    · subst h; decide
    · exact ascii_natToChars _ c h
  · exact ascii_natToChars _

theorem ascii_hex4 (n : Nat) : Ascii (hex4 n) := by
  intro c hc
  simp only [hex4, List.mem_cons, List.not_mem_nil, or_false] at hc
  rcases hc with rfl | rfl | rfl | rfl <;> exact ascii_hexDigitChar _

theorem ascii_uescape (v : Nat) : Ascii (backslashChar :: 'u' :: hex4 v) := by
  intro c hc
  rcases List.mem_cons.mp hc with rfl | hc
  · decide
  rcases List.mem_cons.mp hc with rfl | hc
  · decide
  · exact ascii_hex4 v c hc

theorem ascii_escapeChar (c : Char) : Ascii (escapeChar c) := by
  unfold escapeChar
  split
  · decide
  split
  · decide
  split
  · decide
  split
  · decide
  split
  · decide
  split
  · decide
  split
  · decide
  split
  · split
    · exact ascii_uescape _
    · exact ascii_append (ascii_uescape _) (ascii_uescape _)
  · rename_i h₁ h₂ h₃ h₄ h₅ h₆ h₇ h
    rw [Bool.or_eq_true, not_or] at h
    simp only [decide_eq_true_eq, not_lt] at h
    intro x hx
    rw [List.mem_singleton] at hx
    subst hx
    omega

theorem ascii_dumpStr (s : String) : Ascii (dumpStr s) := by
  intro c hc
  rcases List.mem_cons.mp hc with rfl | hc
  · decide
  rcases List.mem_append.mp hc with hc | hc
  · rw [List.mem_flatten] at hc
    obtain ⟨l, hl, hcl⟩ := hc
    rw [List.mem_map] at hl
    obtain ⟨c₀, _, rfl⟩ := hl
    exact ascii_escapeChar c₀ c hcl
  · rw [List.mem_singleton] at hc
    subst hc
    decide

theorem mem_sepJoin {c : Char} {sep : List Char} :
    ∀ {parts : List (List Char)}, c ∈ sepJoin sep parts →
      c ∈ sep ∨ ∃ p ∈ parts, c ∈ p
  | [], h => by simp [sepJoin] at h
  | [p], h => by
      simp only [sepJoin] at h
      exact Or.inr ⟨p, List.mem_singleton_self p, h⟩
  | p :: q :: rest, h => by
      simp only [sepJoin, List.append_assoc, List.mem_append] at h
      rcases h with h | h | h
      · exact Or.inr ⟨p, by simp, h⟩
      · exact Or.inl h
      · rcases mem_sepJoin h with h | ⟨p₀, hp₀, hc⟩
        · exact Or.inl h
        · exact Or.inr ⟨p₀, by simp [hp₀], hc⟩

/-- Everything `json.dumps` emits is ASCII: with `ensure_ascii=True` every
non-ASCII character is escaped, so the character count of the rendered JSON
equals its UTF-8 byte count. -/
theorem ascii_jsonDumps : ∀ (j : J), Ascii (jsonDumps j)
  | .null => by rw [jsonDumps]; decide
  | .bool true => by rw [jsonDumps]; decide
  | .bool false => by rw [jsonDumps]; decide
  | .num i => by rw [jsonDumps]; exact ascii_intToChars i
  | .str s => by rw [jsonDumps]; exact ascii_dumpStr s
  | .arr xs => by
      rw [jsonDumps]
      intro c hc
      rcases List.mem_cons.mp hc with rfl | hc
      · decide
      rcases List.mem_append.mp hc with hc | hc
      · rcases mem_sepJoin hc with h | ⟨p, hp, hcp⟩
        · rcases List.mem_cons.mp h with rfl | h
          · decide
          · rw [List.mem_singleton] at h; subst h; decide
        · rw [List.mem_map] at hp
          obtain ⟨x, _, rfl⟩ := hp
          exact ascii_jsonDumps x.1 c hcp
      · rw [List.mem_singleton] at hc; subst hc; decide
  | .obj kvs => by
      rw [jsonDumps]
      intro c hc
      rcases List.mem_cons.mp hc with rfl | hc
      · decide
      rcases List.mem_append.mp hc with hc | hc
      · rcases mem_sepJoin hc with h | ⟨p, hp, hcp⟩
        · rcases List.mem_cons.mp h with rfl | h
          · decide
          · rw [List.mem_singleton] at h; subst h; decide
        · rw [List.mem_map] at hp
          obtain ⟨q, _, rfl⟩ := hp
          rcases List.mem_append.mp hcp with hcp | hcp
          · rcases List.mem_append.mp hcp with hcp | hcp
            · exact ascii_dumpStr q.1.1 c hcp
            · rcases List.mem_cons.mp hcp with rfl | hcp
              · decide
              · rw [List.mem_singleton] at hcp; subst hcp; decide
          · exact ascii_jsonDumps q.1.2 c hcp
      · rw [List.mem_singleton] at hc; subst hc; decide
  termination_by j => sizeOf j
  decreasing_by
  · have := List.sizeOf_lt_of_mem x.2
    simp only [J.arr.sizeOf_spec]
    omega
  · have h1 := List.sizeOf_lt_of_mem q.2
    have h2 : sizeOf q.1.2 < sizeOf q.1 := by
      cases q.1 with
      | mk a b => simp
    simp only [J.obj.sizeOf_spec]
    omega

/-- C2: every outbound frame has the form
`Content-Length: <n>\r\n\r\n<json>` where `<n>` is the exact UTF-8 byte
length of the JSON body (the code uses the character count `len(content)`,
which coincides with the byte count because `json.dumps` escapes every
non-ASCII character), and the frame carries no `Content-Type` header — the
single `Content-Length` line is the entire header section. -/
theorem c2_frame_content_length_utf8 (m : J) :
    JsonRpcDispatcher.sendFrame m =
      "Content-Length: ".data ++ natToChars (utf8ByteLen (jsonDumps m)) ++
        "\r\n\r\n".data ++ jsonDumps m := by
  unfold JsonRpcDispatcher.sendFrame
  rw [utf8ByteLen_eq_length_of_ascii (ascii_jsonDumps m)]

namespace JsonRpcDispatcher

theorem lookup_cbSet_self {cbs : List (Int × FutureState)} {i : Int}
    {g : FutureState} (f : FutureState) (h : cbs.lookup i = some g) :
    (cbSet cbs i f).lookup i = some f := by
  induction cbs with
  | nil => simp [List.lookup] at h
  | cons p rest ih =>
      obtain ⟨a, b⟩ := p
      simp only [cbSet, List.map_cons]
      by_cases ha : a = i
      · subst ha
        rw [if_pos rfl]
        simp [List.lookup]
      · have hne : (i == a) = false := beq_eq_false_iff_ne.mpr (fun he => ha he.symm)
        rw [if_neg ha]
        simp only [List.lookup, hne] at h ⊢
        exact ih h

theorem lookup_cbSet_ne {cbs : List (Int × FutureState)} {i j : Int}
    (f : FutureState) (h : j ≠ i) :
    (cbSet cbs i f).lookup j = cbs.lookup j := by
  induction cbs with
  | nil => rfl
  | cons p rest ih =>
      obtain ⟨a, b⟩ := p
      simp only [cbSet, List.map_cons]
      by_cases hai : a = i
      · subst hai
        rw [if_pos rfl]
        have hne : (j == a) = false := beq_eq_false_iff_ne.mpr h
        simp only [List.lookup, hne]
        simpa only [cbSet] using ih
      · rw [if_neg hai]
        simp only [List.lookup]
        cases hja : j == a with
        | true => rfl
        | false => simpa only [cbSet] using ih

theorem lookup_cbErase_self (cbs : List (Int × FutureState)) (i : Int) :
    (cbErase cbs i).lookup i = none := by
  induction cbs with
  | nil => rfl
  | cons p rest ih =>
      obtain ⟨a, b⟩ := p
      simp only [cbErase, List.filter_cons]
      by_cases ha : a = i
      · subst ha
        rw [if_neg (by simp)]
        simpa only [cbErase] using ih
      · rw [if_pos (by simp [ha])]
        have hne : (i == a) = false := beq_eq_false_iff_ne.mpr (fun he => ha he.symm)
        simp only [List.lookup, hne]
        simpa only [cbErase] using ih

theorem isIdResponse_of_isGood {m : J} (h : isGoodResponse m = true) :
    isIdResponse m = true := by
  cases m <;> simp_all [isGoodResponse, isIdResponse, Bool.and_eq_true]

/-- Handling a well-formed response whose id is pending: the read loop
stores the response's outcome on that id's future, emits nothing, and
touches no other entry. -/
theorem readLoopStep_good (st : DispatchState) (m : J)
    (hm : isIdResponse m = true)
    (hp : st.callbacks.lookup (respId m) = some .pending) :
    readLoopStep st m =
      .next { st with callbacks := cbSet st.callbacks (respId m) (respOutcome m) }
        [] none := by
  match m with
  | .obj kvs =>
      simp only [isIdResponse, Bool.and_eq_true] at hm
      obtain ⟨h1, h2⟩ := hm
      match hjr : jGet kvs "jsonrpc" with
      | none => rw [hjr] at h1; simp at h1
      | some .null | some (.bool _) | some (.num _) | some (.arr _) | some (.obj _) =>
          rw [hjr] at h1; simp at h1
      | some (.str s) =>
          rw [hjr] at h1
          simp only [decide_eq_true_eq] at h1
          subst h1
          match hid : jGet kvs "id" with
          | none => rw [hid] at h2; simp at h2
          | some .null | some (.bool _) | some (.str _) | some (.arr _) | some (.obj _) =>
              rw [hid] at h2; simp at h2
          | some (.num n) =>
              rw [hid] at h2
              simp only [bne_iff_ne, ne_eq, decide_eq_true_eq] at h2
              have hrid : respId (J.obj kvs) = n := by
                simp [respId, hid]
              rw [hrid] at hp
              simp only [readLoopStep, hjr, hid, if_pos rfl]
              have ht : jTruthy (J.num n) = true := by
                simp only [jTruthy]
                simpa using h2
              rw [if_pos ht]
              simp only [responseStep, lookupId, hp]
              match hres : jGet kvs "result" with
              | some v =>
                  simp only [hres, respOutcome, hrid, if_true]
              | none =>
                  match herr : jGet kvs "error" with
                  | some e => simp only [hres, herr, respOutcome, hrid, if_true]
                  | none => simp only [hres, herr, respOutcome, hrid, if_true]

theorem respOutcome_ne_pending (m : J) : respOutcome m ≠ .pending := by
  unfold respOutcome
  split
  · split
    · simp
    · split <;> simp
  · simp

theorem sendResume_outcome (st : DispatchState) (m : J) (i : Int)
    (h : st.callbacks.lookup i = some (respOutcome m)) :
    ∃ st₂, sendResume st i = .finished (respDelivered m) st₂ := by
  have hnp := respOutcome_ne_pending m
  unfold sendResume respDelivered
  rw [h]
  rcases ho : respOutcome m with _ | v | e | _
  · exact absurd ho hnp
  · exact ⟨_, rfl⟩
  · exact ⟨_, rfl⟩
  · exact ⟨_, rfl⟩

end JsonRpcDispatcher

open JsonRpcDispatcher

theorem pendingAt_iff (st : DispatchState) (i : Int) :
    pendingAt st i = true ↔ st.callbacks.lookup i = some .pending := by
  unfold pendingAt
  rcases h : st.callbacks.lookup i with _ | f
  · simp
  · cases f <;> simp

theorem respHasResult_outcome {m : J} (h : respHasResult m = true) :
    ∃ v, respOutcome m = .result v := by
  cases m with
  | obj kvs =>
      simp only [respHasResult, jHasKey] at h
      rcases hres : jGet kvs "result" with _ | v
      · rw [hres] at h; simp at h
      · exact ⟨v, by simp [respOutcome, hres]⟩
  | null => simp [respHasResult] at h
  | bool b => simp [respHasResult] at h
  | num n => simp [respHasResult] at h
  | str s => simp [respHasResult] at h
  | arr xs => simp [respHasResult] at h

theorem respOutcome_ne_result {m : J} (hr : respHasResult m = false) (v : J) :
    respOutcome m ≠ .result v := by
  cases m with
  | obj kvs =>
      simp only [respHasResult, jHasKey] at hr
      rcases hres : jGet kvs "result" with _ | w
      · have h0 : respOutcome (J.obj kvs) =
            (match jGet kvs "error" with
              | some e => FutureState.excepted e
              | none => FutureState.invalid) := by
          simp [respOutcome, hres]
        rw [h0]
        rcases jGet kvs "error" with _ | e <;> simp
      · rw [hres] at hr; simp at hr
  | null => simp [respOutcome]
  | bool b => simp [respOutcome]
  | num n => simp [respOutcome]
  | str s => simp [respOutcome]
  | arr xs => simp [respOutcome]

/-- C1: while any number of requests are in flight (distinct pending ids),
the read loop may consume their responses in ANY order: afterwards each id's
future holds exactly the outcome of the response carrying that id, every
other table entry is untouched, and resuming the suspended `send` call for
that id delivers exactly that response's `result` payload (or fails with
exactly its `error` payload) — never another call's response. -/
theorem c1_out_of_order_responses_routed_by_id (msgs : List J)
    (st : DispatchState)
    (hgood : goodResponses msgs = true)
    (hdist : (msgs.map respId).Nodup)
    (hpend : allPending st msgs = true) :
    ∃ st', readLoopMany st msgs = some st' ∧
      (∀ m ∈ msgs, st'.callbacks.lookup (respId m) = some (respOutcome m)) ∧
      (∀ m ∈ msgs, ∃ st₂, sendResume st' (respId m) =
          .finished (respDelivered m) st₂) ∧
      (∀ i, i ∉ msgs.map respId → st'.callbacks.lookup i = st.callbacks.lookup i) := by
  induction msgs generalizing st with
  | nil => exact ⟨st, rfl, by simp, by simp, fun i _ => rfl⟩
  | cons m rest ih =>
      simp only [goodResponses, List.all_cons, Bool.and_eq_true] at hgood
      obtain ⟨hgm, hgrest⟩ := hgood
      simp only [allPending, List.all_cons, Bool.and_eq_true] at hpend
      obtain ⟨hpm, hprest⟩ := hpend
      have hpm' := (pendingAt_iff st (respId m)).mp hpm
      rw [List.map_cons, List.nodup_cons] at hdist
      obtain ⟨hnot, hdrest⟩ := hdist
      have hstep := readLoopStep_good st m (isIdResponse_of_isGood hgm) hpm'
      have hprest1 :
          allPending
            { st with callbacks := cbSet st.callbacks (respId m) (respOutcome m) }
            rest = true := by
        simp only [allPending, List.all_eq_true]
        simp only [allPending, List.all_eq_true] at hprest
        intro m' hm'
        have hne : respId m' ≠ respId m :=
          fun he => hnot (he ▸ List.mem_map_of_mem respId hm')
        rw [pendingAt_iff]
        show (cbSet st.callbacks (respId m) (respOutcome m)).lookup (respId m') =
          some .pending
        rw [lookup_cbSet_ne _ hne]
        exact (pendingAt_iff st (respId m')).mp (hprest m' hm')
      obtain ⟨st', hrun, hset, hres, hframe⟩ := ih _ hgrest hdrest hprest1
      have hlook : ∀ m' ∈ m :: rest,
          st'.callbacks.lookup (respId m') = some (respOutcome m') := by
        intro m' hm'
        rcases List.mem_cons.mp hm' with rfl | hm'
        · rw [hframe (respId m') hnot]
          show (cbSet st.callbacks (respId m') (respOutcome m')).lookup (respId m') =
            some (respOutcome m')
          exact lookup_cbSet_self _ hpm'
        · exact hset m' hm'
      refine ⟨st', ?_, hlook, ?_, ?_⟩
      · rw [readLoopMany, hstep]
        exact hrun
      · intro m' hm'
        exact sendResume_outcome st' m' (respId m') (hlook m' hm')
      · intro i hi
        rw [List.map_cons, List.mem_cons, not_or] at hi
        rw [hframe i hi.2]
        show (cbSet st.callbacks (respId m) (respOutcome m)).lookup i =
          st.callbacks.lookup i
        exact lookup_cbSet_ne _ hi.1

theorem c1_witness :
    goodResponses [c1RespTwo, c1RespOne] = true ∧
    (([c1RespTwo, c1RespOne].map respId).Nodup) ∧
    allPending c1State [c1RespTwo, c1RespOne] = true ∧
    (∃ st', readLoopMany c1State [c1RespTwo, c1RespOne] = some st' ∧
      (∀ m ∈ [c1RespTwo, c1RespOne],
        st'.callbacks.lookup (respId m) = some (respOutcome m)) ∧
      (∀ m ∈ [c1RespTwo, c1RespOne], ∃ st₂, sendResume st' (respId m) =
          .finished (respDelivered m) st₂) ∧
      (∀ i, i ∉ [c1RespTwo, c1RespOne].map respId →
        st'.callbacks.lookup i = c1State.callbacks.lookup i)) :=
  ⟨by decide, by decide, by decide,
    c1_out_of_order_responses_routed_by_id [c1RespTwo, c1RespOne] c1State
      (by decide) (by decide) (by decide)⟩

theorem sendResume_result {st : DispatchState} {i : Int} {v : J}
    (h : st.callbacks.lookup i = some (.result v)) :
    sendResume st i =
      .finished (.ok v) { st with callbacks := cbErase st.callbacks i } := by
  unfold sendResume
  rw [h]

theorem sendResume_excepted {st : DispatchState} {i : Int} {e : J}
    (h : st.callbacks.lookup i = some (.excepted e)) :
    sendResume st i = .finished (.error (.valueError e)) st := by
  unfold sendResume
  rw [h]

theorem sendResume_invalid {st : DispatchState} {i : Int}
    (h : st.callbacks.lookup i = some .invalid) :
    sendResume st i =
      .finished (.error (.valueError (.str "Invalid message"))) st := by
  unfold sendResume
  rw [h]

/-- C4 (amended): when a response with a matching pending id is handled, the
outcome is recorded on that id's future; the table entry is removed only in
the success case (the response has `result` and the suspended `send` resumes
past its `del`); in the failure case (`error`) and the invalid case (neither
key) the `await` raises before the `del` line, so the entry REMAINS in the
table. -/
theorem c4_pending_entry_removed_only_on_success (st : DispatchState) (m : J)
    (hm : isIdResponse m = true)
    (hp : pendingAt st (respId m) = true) :
    readLoopStep st m =
      .next { st with callbacks := cbSet st.callbacks (respId m) (respOutcome m) }
        [] none ∧
    (cbSet st.callbacks (respId m) (respOutcome m)).lookup (respId m) =
      some (respOutcome m) ∧
    (respHasResult m = true →
      ∃ v st₂,
        sendResume
          { st with callbacks := cbSet st.callbacks (respId m) (respOutcome m) }
          (respId m) = .finished (.ok v) st₂ ∧
        st₂.callbacks.lookup (respId m) = none) ∧
    (respHasResult m = false →
      ∃ e,
        sendResume
          { st with callbacks := cbSet st.callbacks (respId m) (respOutcome m) }
          (respId m) =
          .finished (.error e)
            { st with callbacks := cbSet st.callbacks (respId m) (respOutcome m) } ∧
        (cbSet st.callbacks (respId m) (respOutcome m)).lookup (respId m) =
          some (respOutcome m)) := by
  have hp' := (pendingAt_iff st (respId m)).mp hp
  have hlook : (cbSet st.callbacks (respId m) (respOutcome m)).lookup (respId m) =
      some (respOutcome m) := lookup_cbSet_self _ hp'
  refine ⟨readLoopStep_good st m hm hp', hlook, ?_, ?_⟩
  · intro hr
    obtain ⟨v, hv⟩ := respHasResult_outcome hr
    exact ⟨v, _, sendResume_result (hv ▸ hlook), lookup_cbErase_self _ _⟩
  · intro hr
    have hnr := respOutcome_ne_result hr
    rcases ho : respOutcome m with _ | v | e | _
    · exact absurd ho (respOutcome_ne_pending m)
    · exact absurd ho (hnr v)
    · exact ⟨.valueError e, sendResume_excepted (ho ▸ hlook), ho ▸ hlook⟩
    · exact ⟨.valueError (.str "Invalid message"),
        sendResume_invalid (ho ▸ hlook), ho ▸ hlook⟩

theorem c4_witness :
    isIdResponse c4RespOk = true ∧ pendingAt c4State (respId c4RespOk) = true ∧
    (readLoopStep c4State c4RespOk =
      .next
        { c4State with
          callbacks := cbSet c4State.callbacks (respId c4RespOk) (respOutcome c4RespOk) }
        [] none ∧
    (cbSet c4State.callbacks (respId c4RespOk) (respOutcome c4RespOk)).lookup
        (respId c4RespOk) = some (respOutcome c4RespOk) ∧
    (respHasResult c4RespOk = true →
      ∃ v st₂,
        sendResume
          { c4State with
            callbacks := cbSet c4State.callbacks (respId c4RespOk) (respOutcome c4RespOk) }
          (respId c4RespOk) = .finished (.ok v) st₂ ∧
        st₂.callbacks.lookup (respId c4RespOk) = none) ∧
    (respHasResult c4RespOk = false →
      ∃ e,
        sendResume
          { c4State with
            callbacks := cbSet c4State.callbacks (respId c4RespOk) (respOutcome c4RespOk) }
          (respId c4RespOk) =
          .finished (.error e)
            { c4State with
              callbacks := cbSet c4State.callbacks (respId c4RespOk) (respOutcome c4RespOk) } ∧
        (cbSet c4State.callbacks (respId c4RespOk) (respOutcome c4RespOk)).lookup
          (respId c4RespOk) = some (respOutcome c4RespOk))) :=
  ⟨by decide, by decide,
    c4_pending_entry_removed_only_on_success c4State c4RespOk (by decide) (by decide)⟩

/-- C4 counterexample: an error response to pending request 1 is handled
(the future is failed with the error payload and the suspended `send`
re-raises it), yet the entry for id 1 is still in the pending-call table
afterwards — refuting the claim that the entry is removed in the failure
case as well. -/
theorem c4_counterexample :
    readLoopStep c4State c4RespErr =
      .next ⟨2, [(1, .excepted c4ErrPayload)], false⟩ [] none ∧
    sendResume ⟨2, [(1, .excepted c4ErrPayload)], false⟩ 1 =
      .finished (.error (.valueError c4ErrPayload))
        ⟨2, [(1, .excepted c4ErrPayload)], false⟩ ∧
    (⟨2, [(1, .excepted c4ErrPayload)], false⟩ : DispatchState).callbacks.lookup 1 ≠
      none := by
  refine ⟨rfl, rfl, ?_⟩
  intro h
  exact Option.noConfusion h

/- ### Lookup lemmas for Python dict operations -/
theorem lookup_map_set_self {α : Type} {kvs : List (String × α)} {k : String}
    (v : α) (h : (kvs.lookup k).isSome) :
    (kvs.map (fun p => if p.1 = k then (k, v) else p)).lookup k = some v := by
  induction kvs with
  | nil => simp [List.lookup] at h
  | cons p rest ih =>
      obtain ⟨a, b⟩ := p
      simp only [List.map_cons]
      by_cases hak : a = k
      · subst hak
        rw [if_pos rfl]
        simp [List.lookup]
      · rw [if_neg hak]
        have hne : (k == a) = false := beq_eq_false_iff_ne.mpr (fun he => hak he.symm)
        simp only [List.lookup, hne] at h ⊢
        exact ih h

theorem lookup_map_set_ne {α : Type} {kvs : List (String × α)} {k k' : String}
    (v : α) (h : k' ≠ k) :
    (kvs.map (fun p => if p.1 = k then (k, v) else p)).lookup k' = kvs.lookup k' := by
  induction kvs with
  | nil => rfl
  | cons p rest ih =>
      obtain ⟨a, b⟩ := p
      simp only [List.map_cons]
      by_cases hak : a = k
      · subst hak
        rw [if_pos rfl]
        have hne : (k' == a) = false := beq_eq_false_iff_ne.mpr h
        simp only [List.lookup, hne]
        exact ih
      · rw [if_neg hak]
        simp only [List.lookup]
        cases hja : k' == a with
        | true => rfl
        | false => exact ih

theorem lookup_append_single_self {α : Type} {kvs : List (String × α)}
    {k : String} (v : α) (h : kvs.lookup k = none) :
    (kvs ++ [(k, v)]).lookup k = some v := by
  induction kvs with
  | nil => simp [List.lookup]
  | cons p rest ih =>
      obtain ⟨a, b⟩ := p
      simp only [List.cons_append, List.lookup] at h ⊢
      cases hja : k == a with
      | true => rw [hja] at h; simp at h
      | false =>
          rw [hja] at h
          exact ih h

theorem lookup_append_single_ne {α : Type} {kvs : List (String × α)}
    {k k' : String} (v : α) (h : k' ≠ k) :
    (kvs ++ [(k, v)]).lookup k' = kvs.lookup k' := by
  induction kvs with
  | nil =>
      simp only [List.nil_append, List.lookup]
      rw [show (k' == k) = false from beq_eq_false_iff_ne.mpr h]
  | cons p rest ih =>
      obtain ⟨a, b⟩ := p
      simp only [List.cons_append, List.lookup]
      cases hja : k' == a with
      | true => rfl
      | false => exact ih

theorem lookup_pyDictSet_self {α : Type} (kvs : List (String × α)) (k : String)
    (v : α) : (pyDictSet kvs k v).lookup k = some v := by
  unfold pyDictSet
  split
  · exact lookup_map_set_self v (by assumption)
  · rename_i h
    rcases ho : kvs.lookup k with _ | x
    · exact lookup_append_single_self v ho
    · rw [ho] at h
      simp at h

theorem lookup_pyDictSet_ne {α : Type} (kvs : List (String × α)) {k k' : String}
    (v : α) (h : k' ≠ k) :
    (pyDictSet kvs k v).lookup k' = kvs.lookup k' := by
  unfold pyDictSet
  split
  · exact lookup_map_set_ne v h
  · exact lookup_append_single_ne v h

theorem lookup_pyDictDel_self {α : Type} (kvs : List (String × α)) (k : String) :
    (pyDictDel kvs k).lookup k = none := by
  induction kvs with
  | nil => rfl
  | cons p rest ih =>
      obtain ⟨a, b⟩ := p
      simp only [pyDictDel, List.filter_cons]
      by_cases ha : a = k
      · subst ha
        rw [if_neg (by simp)]
        simpa only [pyDictDel] using ih
      · rw [if_pos (by simp [ha])]
        have hne : (k == a) = false := beq_eq_false_iff_ne.mpr (fun he => ha he.symm)
        simp only [List.lookup, hne]
        simpa only [pyDictDel] using ih

theorem le_linesTotalLen_splitlinesAux (t acc : List Char) :
    t.length + acc.length ≤ linesTotalLen (splitlinesAux acc t) := by
  induction t generalizing acc with
  | nil =>
      by_cases ha : acc.isEmpty
      · rw [splitlinesAux, if_pos ha]
        simp only [List.isEmpty_iff] at ha
        simp [ha, linesTotalLen]
      · rw [splitlinesAux, if_neg ha]
        simp [linesTotalLen]
  | cons c rest ih =>
      rw [splitlinesAux]
      by_cases hc : c = '\n'
      · rw [if_pos hc]
        have := ih []
        simp only [linesTotalLen, List.map_cons, List.sum_cons] at this ⊢
        simp only [List.length_cons, List.length_reverse, List.length_nil] at this ⊢
        omega
      · rw [if_neg hc]
        have := ih (c :: acc)
        simp only [List.length_cons] at this ⊢
        omega

theorem offInLines_full (ls : List (List Char)) (ch : Nat) :
    offInLines ls ls.length ch = linesTotalLen ls + ch := by
  induction ls with
  | nil => simp [offInLines, linesTotalLen]
  | cons l ls ih =>
      simp only [List.length_cons, offInLines, linesTotalLen, List.map_cons,
        List.sum_cons]
      simp only [linesTotalLen] at ih
      omega

theorem posToOffset_wholeRange_end (t : List Char) :
    posToOffset t (wholeRange t).endPos = t.length := by
  have hle : t.length ≤ linesTotalLen (splitlines t) := by
    have := le_linesTotalLen_splitlinesAux t []
    simpa [splitlines] using this
  unfold posToOffset wholeRange
  simp only
  rw [offInLines_full]
  omega

theorem posToOffset_zero (t : List Char) : posToOffset t ⟨0, 0⟩ = 0 := by
  unfold posToOffset
  simp [offInLines]

theorem wholeRange_start (t : List Char) : (wholeRange t).startPos = ⟨0, 0⟩ := rfl

/-- Net effect of the lazy whole-document diff: under standard LSP change
application, the emitted delete-then-insert pair turns the old text into
exactly the new text. -/
theorem applyChanges_get_lazy_cheat_diff (old new : List Char) :
    applyChanges old (get_lazy_cheat_diff old new) = new := by
  unfold get_lazy_cheat_diff
  by_cases ho : old = []
  · rw [if_pos ho]
    subst ho
    by_cases hn : new = []
    · rw [if_pos hn]
      subst hn
      rfl
    · rw [if_neg hn]
      simp [applyChanges, applyChange]
  · rw [if_neg ho]
    have hdel : applyChange old (.ranged (wholeRange old) []) = [] := by
      simp only [applyChange]
      rw [wholeRange_start, posToOffset_zero, posToOffset_wholeRange_end]
      simp
    by_cases hn : new = []
    · rw [if_pos hn]
      subst hn
      simp only [List.append_nil, applyChanges, List.foldl_cons, List.foldl_nil]
      exact hdel
    · rw [if_neg hn]
      simp only [List.singleton_append, applyChanges, List.foldl_cons,
        List.foldl_nil]
      rw [hdel]
      simp [applyChange]

/- ### Claims C5-C10 -/
theorem capsSync_spec {st : LspClient.ClientState} {n : Int}
    (h : LspClient.capsSync st = some n) :
    ∃ ckvs, st.serverCapabilities = some (.obj ckvs) ∧
      jGet ckvs "textDocumentSync" = some (.num n) := by
  unfold LspClient.capsSync at h
  split at h
  · rename_i ckvs heq
    split at h
    · rename_i m hg
      exact ⟨ckvs, heq, by rw [hg, Option.some.inj h]⟩
    · simp at h
  · simp at h

/-- C5: a document's tracked version is 0 immediately after `open_document`,
and every successful `update_document` on a tracked URI replaces the stored
record by one whose version is exactly the old version plus 1 (and reports
that version in the `didChange` parameters), regardless of the new text —
hence the per-URI version is strictly monotonic over the open lifetime. -/
theorem c5_version_zero_on_open_and_bumped_by_one_on_update :
    (∀ (st : LspClient.ClientState) (uri : String) (text : List Char) st' p,
      LspClient.open_document st uri text = .ok (st', p) →
        st'.documents.lookup uri = some ⟨text, 0⟩ ∧ p.version = 0) ∧
    (∀ (st : LspClient.ClientState) (uri : String) (text : List Char) st' p
        (d : LspClient.DocState),
      st.documents.lookup uri = some d →
      LspClient.update_document st uri text = .ok (st', p) →
        st'.documents.lookup uri = some { d with version := d.version + 1 } ∧
        p.version = d.version + 1) := by
  constructor
  · intro st uri text st' p h
    unfold LspClient.open_document at h
    split at h
    · exact absurd h (by simp)
    · simp only [Except.ok.injEq, Prod.mk.injEq] at h
      obtain ⟨h1, h2⟩ := h
      subst h1
      subst h2
      exact ⟨lookup_pyDictSet_self _ _ _, rfl⟩
  · intro st uri text st' p d hd h
    unfold LspClient.update_document at h
    split at h
    · exact absurd h (by simp)
    · rename_i document heq
      split at h
      · exact absurd h (by simp)
      · split at h
        · split at h
          · exact absurd h (by simp)
          · rename_i ckvs caps hsync
            simp only [Except.ok.injEq, Prod.mk.injEq] at h
            obtain ⟨h1, h2⟩ := h
            subst h1
            subst h2
            have hdd : document = d := by
              rw [hd] at heq
              exact (Option.some.inj heq).symm
            subst hdd
            exact ⟨lookup_pyDictSet_self _ _ _, rfl⟩
        · exact absurd h (by simp)

theorem c5_witness :
    LspClient.open_document ⟨[], none, []⟩ "u" "x".data =
      .ok (c5OpenedState, ⟨"u", 0, "x".data⟩) ∧
    (c5OpenedState.documents.lookup "u" = some ⟨"x".data, 0⟩ ∧
      (⟨"u", 0, "x".data⟩ : LspClient.DidOpenParams).version = 0) ∧
    LspClient.update_document c5UpdState "u" "zzz".data =
      .ok (c5UpdStateAfter, ⟨"u", 1, [.full "zzz".data]⟩) ∧
    (c5UpdStateAfter.documents.lookup "u" = some ⟨"ab".data, 1⟩ ∧
      (⟨"u", 1, [.full "zzz".data]⟩ : LspClient.DidChangeParams).version = 1) :=
  ⟨rfl,
    c5_version_zero_on_open_and_bumped_by_one_on_update.1 ⟨[], none, []⟩ "u"
      "x".data c5OpenedState ⟨"u", 0, "x".data⟩ rfl,
    rfl,
    c5_version_zero_on_open_and_bumped_by_one_on_update.2 c5UpdState "u"
      "zzz".data c5UpdStateAfter ⟨"u", 1, [.full "zzz".data]⟩ ⟨"ab".data, 0⟩
      rfl rfl⟩

/-- C6: with Incremental sync negotiated, `update_document` on a tracked URI
emits exactly `get_lazy_cheat_diff` of the stored text against the new text
as its `contentChanges`: a delete of the stored text's whole range
(replacement text empty) exactly when the stored text is non-empty, then an
insert of the entire new text exactly when it is non-empty; the delete's
range starts at `(0,0)` and its end offset clamps to the whole stored text,
and applying the emitted changes under LSP semantics turns the stored text
into exactly the new text. -/
theorem c6_incremental_update_emits_whole_document_delete_insert
    (st : LspClient.ClientState) (uri : String) (newText : List Char)
    (d : LspClient.DocState)
    (hd : st.documents.lookup uri = some d)
    (hsync : LspClient.capsSync st = some 2) :
    LspClient.update_document st uri newText =
      .ok ({ st with documents :=
              pyDictSet st.documents uri { d with version := d.version + 1 } },
        ⟨uri, d.version + 1, get_lazy_cheat_diff d.text newText⟩) ∧
    get_lazy_cheat_diff d.text newText =
      (if d.text = [] then [] else [.ranged (wholeRange d.text) []]) ++
        (if newText = [] then [] else [.ranged (wholeRange newText) newText]) ∧
    (wholeRange d.text).startPos = ⟨0, 0⟩ ∧
    posToOffset d.text (wholeRange d.text).endPos = d.text.length ∧
    applyChanges d.text (get_lazy_cheat_diff d.text newText) = newText := by
  obtain ⟨ckvs, hcaps, hget⟩ := capsSync_spec hsync
  refine ⟨?_, rfl, wholeRange_start d.text, posToOffset_wholeRange_end d.text,
    applyChanges_get_lazy_cheat_diff d.text newText⟩
  unfold LspClient.update_document
  simp only [hd, hcaps, hget]

theorem c6_witness :
    c6State.documents.lookup "u" = some c6Doc ∧
    LspClient.capsSync c6State = some 2 ∧
    (LspClient.update_document c6State "u" "x".data =
      .ok (c6StateAfter,
        ⟨"u", 0 + 1, get_lazy_cheat_diff "ab".data "x".data⟩) ∧
    get_lazy_cheat_diff "ab".data "x".data =
      (if "ab".data = ([] : List Char) then []
        else [.ranged (wholeRange "ab".data) []]) ++
        (if "x".data = ([] : List Char) then []
          else [.ranged (wholeRange "x".data) "x".data]) ∧
    (wholeRange "ab".data).startPos = ⟨0, 0⟩ ∧
    posToOffset "ab".data (wholeRange "ab".data).endPos = "ab".data.length ∧
    applyChanges "ab".data (get_lazy_cheat_diff "ab".data "x".data) = "x".data) :=
  ⟨rfl, rfl,
    c6_incremental_update_emits_whole_document_delete_insert c6State "u"
      "x".data c6Doc rfl rfl⟩

/-- C7 (amended): `LspClient._send` stores the fresh token in
`work_progress` and, when `params` is a mapping, inserts it as
`workDoneToken`; the token entry is deleted when `Dispatcher.send` returns
a result, but when `send` fails the `del` line is skipped and the token
entry remains in the map. -/
theorem c7_token_removed_only_on_success (st : LspClient.ClientState)
    (token : String) (params : LspClient.PyParams) (kvs : List (String × J)) :
    (∀ v : J,
      (LspClient.lspSend st token params (.ok v)).result = .ok v ∧
      (LspClient.lspSend st token params (.ok v)).state.workProgress.lookup token
        = none) ∧
    (∀ e : PyErr,
      (LspClient.lspSend st token params (.error e)).result = .error e ∧
      (LspClient.lspSend st token params (.error e)).state.workProgress.lookup token
        = some .null) ∧
    (∀ outcome : Except PyErr J,
      (LspClient.lspSend st token (.objP kvs) outcome).sentParams =
        .objP (pyDictSet kvs "workDoneToken" (.str token))) := by
  refine ⟨?_, ?_, ?_⟩
  · intro v
    exact ⟨rfl, lookup_pyDictDel_self _ _⟩
  · intro e
    exact ⟨rfl, lookup_pyDictSet_self _ _ _⟩
  · intro outcome
    cases outcome with
    | ok v => rfl
    | error e => rfl

/-- C7 counterexample: after a request that COMPLETED by failing
(`Dispatcher.send` raised), the work-done token is still in the token map —
refuting "removed ... both when ... returns a result and when it fails". -/
theorem c7_counterexample :
    (LspClient.lspSend ⟨[], none, []⟩ "tok" (.objP []) (.error .cancelled)).result
      = .error .cancelled ∧
    ((LspClient.lspSend ⟨[], none, []⟩ "tok" (.objP [])
        (.error .cancelled)).state.workProgress.lookup "tok").isSome = true :=
  ⟨rfl, by decide⟩

/-- C8: `send_notification` performs no emptiness check — called with an
empty method it still builds and writes the frame for
`{"jsonrpc": "2.0", "method": ""}` instead of raising the `ValueError` its
own docstring documents; notification messages never carry an `id` key, and
always carry the given method. -/
theorem c8_empty_method_notification_is_still_written :
    send_notification "" none =
      .ok (JsonRpcDispatcher.sendFrame
        (.obj [("jsonrpc", .str "2.0"), ("method", .str "")])) ∧
    (∀ (method : String) (params : Option J),
      jGet (notificationMessage method params) "id" = none) ∧
    (∀ (method : String) (params : Option J),
      jGet (notificationMessage method params) "method" = some (.str method)) := by
  refine ⟨rfl, ?_, ?_⟩
  · intro method params
    cases params with
    | none => rfl
    | some p => rfl
  · intro method params
    cases params with
    | none => rfl
    | some p => rfl

/-- C9: at the dispatcher's own call site
(`send_error(ErrorCodes.InvalidRequest, "Invalid JSON-RPC version", None)`),
the payload dict is keyed by the VALUES of `code` and `message` (the dict
literal `{code: code, message: message}` uses the variables as keys), so the
serialized object has keys `"-32600"` and `"Invalid JSON-RPC version"` and
carries NO `"code"` or `"message"` field. -/
theorem c9_error_payload_misses_code_and_message_fields :
    send_error_payload (-32600) "Invalid JSON-RPC version" none =
      [(.pint (-32600), .num (-32600)),
       (.pstr "Invalid JSON-RPC version", .str "Invalid JSON-RPC version")] ∧
    send_error_message (-32600) "Invalid JSON-RPC version" none =
      .obj [("-32600", .num (-32600)),
            ("Invalid JSON-RPC version", .str "Invalid JSON-RPC version")] ∧
    (∀ kvs, send_error_message (-32600) "Invalid JSON-RPC version" none = .obj kvs →
      jGet kvs "code" = none ∧ jGet kvs "message" = none) := by
  refine ⟨rfl, rfl, ?_⟩
  intro kvs h
  have hk : kvs =
      [("-32600", J.num (-32600)),
       ("Invalid JSON-RPC version", J.str "Invalid JSON-RPC version")] := by
    have h2 : send_error_message (-32600) "Invalid JSON-RPC version" none =
        .obj [("-32600", J.num (-32600)),
              ("Invalid JSON-RPC version", J.str "Invalid JSON-RPC version")] := rfl
    rw [h] at h2
    exact J.obj.inj h2
  subst hk
  exact ⟨rfl, rfl⟩

/-- C10: issuing a Session-level request with mapping `params` mutates the
caller's own object: the `workDoneToken` key is added to that very mapping
before the request is sent (the object handed to `Dispatcher.send` IS the
caller's object), and the key is still present in the caller's object after
the call completes, for successful and failed outcomes alike. -/
theorem c10_params_mutated_in_place (st : LspClient.ClientState)
    (token : String) (kvs : List (String × J)) (outcome : Except PyErr J) :
    (LspClient.lspSend st token (.objP kvs) outcome).sentParams =
      .objP (pyDictSet kvs "workDoneToken" (.str token)) ∧
    (LspClient.lspSend st token (.objP kvs) outcome).callerParams =
      (LspClient.lspSend st token (.objP kvs) outcome).sentParams ∧
    (LspClient.paramsKvs
        ((LspClient.lspSend st token (.objP kvs) outcome).callerParams)).lookup
      "workDoneToken" = some (.str token) := by
  cases outcome with
  | ok v => exact ⟨rfl, rfl, lookup_pyDictSet_self _ _ _⟩
  | error e => exact ⟨rfl, rfl, lookup_pyDictSet_self _ _ _⟩

/- ### Lemmas about the reader's string primitives -/
theorem readline_newline_append (l r : List Char) (h : ('\n' : Char) ∉ l) :
    readline (l ++ '\n' :: r) = (l ++ ['\n'], r) := by
  induction l with
  | nil => simp [readline]
  | cons c cs ih =>
      have hc : c ≠ '\n' := fun he => h (he ▸ List.mem_cons_self c cs)
      have hcs : ('\n' : Char) ∉ cs := fun hm => h (List.mem_cons_of_mem c hm)
      simp only [List.cons_append, readline, if_neg hc, List.append_eq, ih hcs]

theorem readline_length_lt (s : List Char) (h : s ≠ []) :
    (readline s).2.length < s.length := by
  induction s with
  | nil => exact absurd rfl h
  | cons c rest ih =>
      simp only [readline]
      by_cases hc : c = '\n'
      · rw [if_pos hc]
        simp
      · rw [if_neg hc]
        rcases rest with _ | ⟨d, rest₂⟩
        · simp [readline]
        · have := ih (by simp)
          simp only [List.length_cons] at this ⊢
          omega

theorem rstrip_append_space {l : List Char} {c : Char} (h : isPySpace c = true) :
    rstrip (l ++ [c]) = rstrip l := by
  simp [rstrip, List.dropWhile_cons, h]

theorem rstrip_append_nonspace {l : List Char} {c : Char}
    (h : isPySpace c = false) : rstrip (l ++ [c]) = l ++ [c] := by
  simp [rstrip, List.dropWhile_cons, h]

theorem lstrip_cons_nonspace {s : List Char} {c : Char}
    (h : isPySpace c = false) : lstrip (c :: s) = c :: s := by
  simp [lstrip, List.dropWhile_cons, h]

theorem splitColonAux_no_colon (acc : List Char) (s : List Char)
    (h : ∀ c ∈ s, c ≠ ':') : splitColonAux acc s = [acc.reverse ++ s] := by
  induction s generalizing acc with
  | nil => simp [splitColonAux]
  | cons c rest ih =>
      have hc : c ≠ ':' := h c (List.mem_cons_self c rest)
      rw [splitColonAux, if_neg hc, ih (c :: acc) (fun d hd => h d (List.mem_cons_of_mem c hd))]
      simp

theorem splitColon_single (pre post : List Char) (h1 : ∀ c ∈ pre, c ≠ ':')
    (h2 : ∀ c ∈ post, c ≠ ':') :
    splitColon (pre ++ ':' :: post) = [pre, post] := by
  unfold splitColon
  have haux : ∀ acc, splitColonAux acc (pre ++ ':' :: post) =
      [acc.reverse ++ pre, post] := by
    induction pre with
    | nil =>
        intro acc
        simp only [List.nil_append, splitColonAux, if_pos rfl]
        rw [splitColonAux_no_colon [] post h2]
        simp
    | cons c cs ih =>
        intro acc
        have hc : c ≠ ':' := h1 c (List.mem_cons_self c cs)
        rw [List.cons_append, splitColonAux, if_neg hc,
          ih (fun d hd => h1 d (List.mem_cons_of_mem c hd)) (c :: acc)]
        simp
  simpa using haux []

theorem decodeAscii_of_ascii {s : List Char} (h : Ascii s) :
    decodeAscii s = some s := by
  unfold decodeAscii
  rw [if_pos (List.all_eq_true.mpr (fun c hc => decide_eq_true (h c hc)))]

/- ### Digits round-trip: `int(str(n)) == n` -/
theorem isDigitChar_digitChar {d : Nat} (h : d < 10) :
    isDigitChar (digitChar d) = true := by
  interval_cases d <;> decide

theorem digitChar_toNat {d : Nat} (h : d < 10) :
    (digitChar d).toNat - 48 = d := by
  interval_cases d <;> decide

theorem mem_natCharsAux_digit (fuel : Nat) :
    ∀ n, ∀ c ∈ natCharsAux fuel n, isDigitChar c = true := by
  induction fuel with
  | zero =>
      intro n c hc
      match n with
      | 0 => simp [natCharsAux] at hc
      | m + 1 => simp [natCharsAux] at hc
  | succ fuel ih =>
      intro n c hc
      match n with
      | 0 => simp [natCharsAux] at hc
      | m + 1 =>
          rw [natCharsAux] at hc
          rcases List.mem_append.mp hc with hc | hc
          · exact ih _ c hc
          · rw [List.mem_singleton] at hc
            subst hc
            exact isDigitChar_digitChar (Nat.mod_lt _ (by omega))

theorem mem_natToChars_digit (n : Nat) : ∀ c ∈ natToChars n, isDigitChar c = true := by
  unfold natToChars
  split
  · intro c hc
    rw [List.mem_singleton] at hc
    subst hc
    decide
  · exact mem_natCharsAux_digit n n

theorem natToChars_ends_digit (n : Nat) :
    ∃ l d, natToChars n = l ++ [digitChar d] ∧ d < 10 := by
  unfold natToChars
  split
  · exact ⟨[], 0, rfl, by omega⟩
  · rename_i h
    unfold natChars
    obtain ⟨m, rfl⟩ := Nat.exists_eq_succ_of_ne_zero h
    exact ⟨natCharsAux m ((m + 1) / 10), (m + 1) % 10, rfl,
      Nat.mod_lt _ (by omega)⟩

theorem natToChars_ne_nil (n : Nat) : natToChars n ≠ [] := by
  obtain ⟨l, d, heq, _⟩ := natToChars_ends_digit n
  rw [heq]
  simp

theorem isPySpace_false_of_digit {c : Char} (h : isDigitChar c = true) :
    isPySpace c = false := by
  simp only [isDigitChar, Bool.and_eq_true, decide_eq_true_eq] at h
  simp only [isPySpace, Bool.or_eq_false_iff, decide_eq_false_iff_not]
  refine ⟨⟨⟨⟨⟨?_, ?_⟩, ?_⟩, ?_⟩, ?_⟩, ?_⟩ <;>
    (intro he; subst he; exact absurd h (by decide))

theorem digit_ne_colon {c : Char} (h : isDigitChar c = true) : c ≠ ':' := by
  intro he
  subst he
  simp [isDigitChar] at h

theorem digit_ne_newline {c : Char} (h : isDigitChar c = true) : c ≠ '\n' := by
  intro he
  subst he
  simp [isDigitChar] at h

theorem ascii_of_digit {c : Char} (h : isDigitChar c = true) : c.toNat < 128 := by
  simp only [isDigitChar, Bool.and_eq_true, decide_eq_true_eq] at h
  omega

theorem parseDigitsAux_append (acc : Nat) (l₁ l₂ : List Char) :
    parseDigitsAux acc (l₁ ++ l₂) =
      match parseDigitsAux acc l₁ with
      | some a => parseDigitsAux a l₂
      | none => none := by
  induction l₁ generalizing acc with
  | nil => rfl
  | cons c rest ih =>
      simp only [List.cons_append, parseDigitsAux]
      by_cases hc : isDigitChar c = true
      · rw [if_pos hc, if_pos hc]
        exact ih _
      · rw [if_neg hc, if_neg hc]

theorem parseDigitsAux_natCharsAux (fuel : Nat) :
    ∀ n acc, n ≤ fuel →
      parseDigitsAux acc (natCharsAux fuel n) =
        some (acc * 10 ^ (natCharsAux fuel n).length + n) := by
  induction fuel with
  | zero =>
      intro n acc h
      have : n = 0 := by omega
      subst this
      simp [natCharsAux, parseDigitsAux]
  | succ fuel ih =>
      intro n acc h
      match n with
      | 0 => simp [natCharsAux, parseDigitsAux]
      | m + 1 =>
          rw [natCharsAux, parseDigitsAux_append,
            ih ((m + 1) / 10) acc (by omega)]
          have hd : (m + 1) % 10 < 10 := Nat.mod_lt _ (by omega)
          have h1 := isDigitChar_digitChar hd
          have h2 := digitChar_toNat hd
          simp only [parseDigitsAux, h1, if_true, h2]
          simp only [List.length_append, List.length_singleton]
          rw [pow_succ]
          have hdm := Nat.div_add_mod (m + 1) 10
          generalize (10 : Nat) ^ (natCharsAux fuel ((m + 1) / 10)).length = K at *
          refine congrArg some ?_
          rw [← mul_assoc]
          generalize acc * K = A
          omega

theorem parseInt_all_digits {s : List Char} (hne : s ≠ [])
    (hd : ∀ c ∈ s, isDigitChar c = true) :
    parseInt s = (parseDigitsAux 0 s).map (fun m => (m : Int)) := by
  match s with
  | [] => exact absurd rfl hne
  | c :: rest =>
      have hc := hd c (List.mem_cons_self c rest)
      rw [parseInt]
      rw [if_neg (by intro he; subst he; simp [isDigitChar] at hc)]
      rw [if_neg (by intro he; subst he; simp [isDigitChar] at hc)]

theorem parseInt_natToChars (n : Nat) : parseInt (natToChars n) = some (n : Int) := by
  by_cases h0 : n = 0
  · subst h0
    decide
  · rw [parseInt_all_digits (natToChars_ne_nil n) (mem_natToChars_digit n)]
    unfold natToChars
    rw [if_neg h0]
    unfold natChars
    rw [parseDigitsAux_natCharsAux n n 0 (le_refl n)]
    simp

namespace JsonRpcDispatcher

/- ### Unfolding lemmas for the header loop -/
theorem headerLoopF_succ (fuel : Nat) (c : Char) (cs : List Char) (hs : Headers) :
    headerLoopF (fuel + 1) (c :: cs) hs =
      if (readline (c :: cs)).1 = ['\r', '\n'] then some (hs, (readline (c :: cs)).2)
      else
        match parseHeaderLine (readline (c :: cs)).1 with
        | none => none
        | some nv =>
            headerLoopF fuel (readline (c :: cs)).2
              (pyDictSet hs ⟨nv.1⟩ (lstrip nv.2)) := rfl

theorem headerLoopF_fuel_irrel (f₁ : Nat) :
    ∀ (f₂ : Nat) (s : List Char) (hs : Headers),
      s.length < f₁ → s.length < f₂ → headerLoopF f₁ s hs = headerLoopF f₂ s hs := by
  induction f₁ with
  | zero =>
      intro f₂ s hs h₁ h₂
      omega
  | succ g ih =>
      intro f₂ s hs h₁ h₂
      obtain ⟨g₂, rfl⟩ : ∃ g₂, f₂ = g₂ + 1 := ⟨f₂ - 1, by omega⟩
      match s with
      | [] => rfl
      | c :: cs =>
          rw [headerLoopF_succ, headerLoopF_succ]
          by_cases hb : (readline (c :: cs)).1 = ['\r', '\n']
          · rw [if_pos hb, if_pos hb]
          · rw [if_neg hb, if_neg hb]
            rcases hp : parseHeaderLine (readline (c :: cs)).1 with _ | nv
            · rfl
            · simp only []
              have hlt := readline_length_lt (c :: cs) (by simp)
              simp only [List.length_cons] at h₁ h₂ hlt
              exact ih g₂ _ _ (by omega) (by omega)

theorem headerLoop_step (s : List Char) (hs : Headers) (h : s ≠ []) :
    headerLoop s hs =
      if (readline s).1 = ['\r', '\n'] then some (hs, (readline s).2)
      else
        match parseHeaderLine (readline s).1 with
        | none => none
        | some nv =>
            headerLoop (readline s).2 (pyDictSet hs ⟨nv.1⟩ (lstrip nv.2)) := by
  obtain ⟨c, cs, rfl⟩ : ∃ c cs, s = c :: cs := by
    rcases s with _ | ⟨c, cs⟩
    · exact absurd rfl h
    · exact ⟨c, cs, rfl⟩
  unfold headerLoop
  rw [show (c :: cs).length + 1 = cs.length + 1 + 1 from by simp]
  rw [headerLoopF_succ]
  by_cases hb : (readline (c :: cs)).1 = ['\r', '\n']
  · rw [if_pos hb, if_pos hb]
  · rw [if_neg hb, if_neg hb]
    rcases hp : parseHeaderLine (readline (c :: cs)).1 with _ | nv
    · rfl
    · simp only []
      have hlt := readline_length_lt (c :: cs) (by simp)
      simp only [List.length_cons] at hlt
      exact headerLoopF_fuel_irrel _ _ _ _ (by omega) (by omega)

/-- Reading the single header line `Content-Length: <digits of n>` followed
by the blank line: the headers dict maps `Content-Length` to the digits and
the remainder is untouched. -/
theorem headerLoop_content_length (n : Nat) (rest : List Char) :
    headerLoop ("Content-Length: ".data ++ natToChars n ++ "\r\n\r\n".data ++ rest)
      [] = some ([("Content-Length", natToChars n)], rest) := by
  have hdig := mem_natToChars_digit n
  have hs1 : ("Content-Length: ".data ++ natToChars n ++ "\r\n\r\n".data ++ rest) =
      ("Content-Length: ".data ++ natToChars n ++ ['\r']) ++
        '\n' :: ('\r' :: '\n' :: rest) := by
    simp
  rw [hs1, headerLoop_step _ _ (by simp)]
  have hnl : ('\n' : Char) ∉ ("Content-Length: ".data ++ natToChars n ++ ['\r']) := by
    intro hm
    rcases List.mem_append.mp hm with hm | hm
    · rcases List.mem_append.mp hm with hm | hm
      · exact absurd hm (by decide)
      · exact absurd (hdig _ hm) (by decide)
    · exact absurd hm (by decide)
  rw [readline_newline_append _ _ hnl]
  simp only []
  rw [if_neg ?hne]
  case hne =>
    intro heq
    have hlen := congrArg List.length heq
    simp [List.length_append] at hlen
  have hasc : Ascii (("Content-Length: ".data ++ natToChars n ++ ['\r']) ++ ['\n']) := by
    refine ascii_append (ascii_append (ascii_append ?_ ?_) ?_) ?_
    · decide
    · exact fun c hc => ascii_of_digit (hdig c hc)
    · decide
    · decide
  have hph : parseHeaderLine (("Content-Length: ".data ++ natToChars n ++ ['\r']) ++
      ['\n']) = some ("Content-Length".data, ' ' :: natToChars n) := by
    unfold parseHeaderLine
    rw [decodeAscii_of_ascii hasc]
    simp only []
    rw [@rstrip_append_space _ '\n' (by decide)]
    rw [@rstrip_append_space _ '\r' (by decide)]
    obtain ⟨l, d, hed, hdlt⟩ := natToChars_ends_digit n
    rw [hed, ← List.append_assoc,
      rstrip_append_nonspace (isPySpace_false_of_digit (isDigitChar_digitChar hdlt))]
    rw [List.append_assoc, ← hed]
    have hsA : "Content-Length: ".data ++ natToChars n =
        "Content-Length".data ++ ':' :: (' ' :: natToChars n) := by
      simp
    rw [hsA, splitColon_single _ _ (by decide) ?hpost]
    case hpost =>
      intro c hc
      rcases List.mem_cons.mp hc with rfl | hc
      · decide
      · exact digit_ne_colon (hdig c hc)
  rw [hph]
  simp only []
  have hls : lstrip (' ' :: natToChars n) = natToChars n := by
    rcases hds : natToChars n with _ | ⟨c0, ds⟩
    · exact absurd hds (natToChars_ne_nil n)
    · unfold lstrip
      simp only [List.dropWhile_cons]
      rw [if_pos (by decide)]
      rw [if_neg ?hc0]
      case hc0 =>
        have : isPySpace c0 = false :=
          isPySpace_false_of_digit (hdig c0 (hds ▸ List.mem_cons_self c0 ds))
        simp [this]
  rw [hls]
  show headerLoop ('\r' :: '\n' :: rest) [("Content-Length", natToChars n)] = _
  rw [headerLoop_step _ _ (by simp)]
  rw [show ('\r' :: '\n' :: rest) = ['\r'] ++ '\n' :: rest from rfl,
    readline_newline_append _ _ (by decide)]
  simp only []
  all_goals rw [if_pos (by decide)]

/-- Reading a single unrelated header line followed by the blank line. -/
theorem headerLoop_xcustom (rest : List Char) :
    headerLoop ("X-Custom: nope\r\n\r\n".data ++ rest) [] =
      some ([("X-Custom", "nope".data)], rest) := by
  rw [show ("X-Custom: nope\r\n\r\n".data ++ rest) =
      "X-Custom: nope\r".data ++ '\n' :: ('\r' :: '\n' :: rest) from rfl]
  rw [headerLoop_step _ _ (by simp), readline_newline_append _ _ (by decide)]
  simp only []
  rw [if_neg (by decide)]
  rw [show parseHeaderLine ("X-Custom: nope\r".data ++ ['\n']) =
      some ("X-Custom".data, " nope".data) from by decide]
  show headerLoop ('\r' :: '\n' :: rest) [("X-Custom", "nope".data)] = _
  rw [headerLoop_step _ _ (by simp)]
  rw [show ('\r' :: '\n' :: rest) = ['\r'] ++ '\n' :: rest from rfl,
    readline_newline_append _ _ (by decide)]
  simp only []
  all_goals rw [if_pos (by decide)]

/-- Reading a single `Content-Type: text/plain` header line followed by the
blank line. -/
theorem headerLoop_ctype (rest : List Char) :
    headerLoop ("Content-Type: text/plain\r\n\r\n".data ++ rest) [] =
      some ([("Content-Type", "text/plain".data)], rest) := by
  rw [show ("Content-Type: text/plain\r\n\r\n".data ++ rest) =
      "Content-Type: text/plain\r".data ++ '\n' :: ('\r' :: '\n' :: rest) from rfl]
  rw [headerLoop_step _ _ (by simp), readline_newline_append _ _ (by decide)]
  simp only []
  rw [if_neg (by decide)]
  rw [show parseHeaderLine ("Content-Type: text/plain\r".data ++ ['\n']) =
      some ("Content-Type".data, " text/plain".data) from by decide]
  show headerLoop ('\r' :: '\n' :: rest) [("Content-Type", "text/plain".data)] = _
  rw [headerLoop_step _ _ (by simp)]
  rw [show ('\r' :: '\n' :: rest) = ['\r'] ++ '\n' :: rest from rfl,
    readline_newline_append _ _ (by decide)]
  simp only []
  all_goals rw [if_pos (by decide)]

/-- A header line whose value contains an extra colon makes the header loop
raise (three pieces cannot be unpacked into `name, value`). -/
theorem headerLoop_extra_colon (rest : List Char) :
    headerLoop ("X-Header: a:b\r\n".data ++ rest) [] = none := by
  rw [show ("X-Header: a:b\r\n".data ++ rest) =
      "X-Header: a:b\r".data ++ '\n' :: rest from rfl]
  rw [headerLoop_step _ _ (by simp), readline_newline_append _ _ (by decide)]
  simp only []
  rw [if_neg (by decide)]
  all_goals rw [show parseHeaderLine ("X-Header: a:b\r".data ++ ['\n']) = none from
    by decide]

/-- The Content-Length half on a stored digit string: reads exactly the
body and classifies it by `json.loads`. -/
theorem contentLengthStep_digits (n : Nat) (body rest : List Char)
    (hb : body.length = n) :
    contentLengthStep [("Content-Length", natToChars n)] (body ++ rest) =
      (match jsonParseFull body with
        | some j => ReadOne.yielded [] j rest
        | none =>
            ReadOne.skipped
              [⟨parseErrorCode, "Could not deserialize JSON",
                some (.str "parse error")⟩] rest) := by
  unfold contentLengthStep
  rw [show (([("Content-Length", natToChars n)] : Headers).lookup "Content-Length") =
      some (natToChars n) from rfl]
  simp only []
  rw [show (natToChars n).isEmpty = false from by
    rcases hds : natToChars n with _ | ⟨c0, ds⟩
    · exact absurd hds (natToChars_ne_nil n)
    · rfl]
  rw [if_neg (by simp)]
  rw [parseInt_natToChars n]
  simp only []
  rw [if_neg (by simp)]
  rw [show ((n : Int)).toNat = n from Int.toNat_natCast n]
  rw [show readexactly n (body ++ rest) = some (body, rest) from ?rex]
  case rex =>
    unfold readexactly
    rw [if_neg (by simp [List.length_append]; omega)]
    subst hb
    rw [List.take_left, List.drop_left]

end JsonRpcDispatcher

open JsonRpcDispatcher in
/-- C3 (amended): the malformed-input behaviour of the read loop, per case.
Detected malformed messages — missing `Content-Length`, a `Content-Type`
without `utf-8`, a JSON body parse failure, a wrong `jsonrpc` version — are
answered with exactly one error response, do not crash the loop, and
processing continues at the following bytes (for a rejected `Content-Type`
the rejected message's body bytes, if any, are NOT skipped).  But a header
line whose value contains an extra colon CRASHES the read loop (the
`name, value` unpacking raises), and so does an id-less message lacking a
`method` key while a notification handler is registered; an empty stream
ends the loop cleanly. -/
theorem c3_malformed_input_handling :
    (∀ rest, readOne ("X-Custom: nope\r\n\r\n".data ++ rest) =
      .skipped [⟨invalidRequestCode, "Missing Content-Length header", none⟩] rest) ∧
    (∀ rest, readOne ("Content-Type: text/plain\r\n\r\n".data ++ rest) =
      .skipped [⟨invalidRequestCode, "Unexpected Content-Type header", none⟩] rest) ∧
    (∀ (n : Nat) (body rest : List Char), body.length = n →
      readOne ("Content-Length: ".data ++ natToChars n ++ "\r\n\r\n".data ++
          (body ++ rest)) =
        (match jsonParseFull body with
          | some j => ReadOne.yielded [] j rest
          | none =>
              ReadOne.skipped
                [⟨parseErrorCode, "Could not deserialize JSON",
                  some (.str "parse error")⟩] rest)) ∧
    (∀ (st : DispatchState) (kvs : List (String × J)), badVersion kvs = true →
      readLoopStep st (.obj kvs) =
        .next st [⟨invalidRequestCode, "Invalid JSON-RPC version", none⟩] none) ∧
    (∀ rest, readOne ("X-Header: a:b\r\n".data ++ rest) = .crash) ∧
    (∀ (st : DispatchState) (kvs : List (String × J)), st.handlerSet = true →
      jGet kvs "jsonrpc" = some (.str "2.0") → jGet kvs "id" = none →
      jGet kvs "method" = none → readLoopStep st (.obj kvs) = .crash) ∧
    (∀ st : DispatchState, runReadLoop [] st = (some st, [])) := by
  refine ⟨?_, ?_, ?_, ?_, ?_, ?_, fun st => rfl⟩
  · intro rest
    unfold readOne
    rw [headerLoop_xcustom]
    rfl
  · intro rest
    unfold readOne
    rw [headerLoop_ctype]
    rfl
  · intro n body rest hb
    unfold readOne
    rw [headerLoop_content_length n (body ++ rest)]
    show contentLengthStep [("Content-Length", natToChars n)] (body ++ rest) = _
    exact contentLengthStep_digits n body rest hb
  · intro st kvs hbad
    unfold badVersion at hbad
    unfold readLoopStep
    simp only []
    rcases hj : jGet kvs "jsonrpc" with _ | v
    · rfl
    · rw [hj] at hbad
      cases v with
      | str s =>
          simp only [Bool.not_eq_true', decide_eq_false_iff_not] at hbad
          simp only []
          rw [if_neg hbad]
      | null => rfl
      | bool b => rfl
      | num m => rfl
      | arr xs => rfl
      | obj o => rfl
  · intro rest
    unfold readOne
    rw [headerLoop_extra_colon]
  · intro st kvs hh hj hid hm
    unfold readLoopStep
    simp only []
    rw [hj]
    simp only []
    rw [if_pos trivial, hid]
    simp only []
    unfold notifStep
    rw [if_pos hh, hm]

/-- C3 counterexample: two single malformed inbound messages that KILL the
read loop instead of being answered and skipped.  (1) A frame whose header
line carries an extra colon in its value crashes the loop (the `split(":")`
unpacking raises), so the well-formed frame following it is never
processed.  (2) An id-less message lacking a `method` field crashes the
loop with a `KeyError` when a notification handler is registered.  In both
runs the loop neither reaches end-of-stream nor was stopped — refuting
"does not crash, and continues processing subsequent well-formed frames". -/
theorem c3_counterexample :
    (JsonRpcDispatcher.runReadLoop
        ("X-Header: a:b\r\n\r\n".data ++ "Content-Length: 2\r\n\r\n\x7b\x7d".data)
        ⟨1, [], false⟩).1 = none ∧
    (JsonRpcDispatcher.runReadLoop
        "Content-Length: 18\r\n\r\n\x7b\"jsonrpc\": \"2.0\"\x7d".data
        ⟨1, [], true⟩).1 = none ∧
    (JsonRpcDispatcher.runReadLoop
        "Content-Length: 18\r\n\r\n\x7b\"jsonrpc\": \"2.0\"\x7d".data
        ⟨1, [], false⟩).1 = some ⟨1, [], false⟩ :=
  ⟨rfl, rfl, rfl⟩

theorem c3_witness :
    JsonRpcDispatcher.readOne ("X-Custom: nope\r\n\r\n".data ++ []) =
      .skipped
        [⟨JsonRpcDispatcher.invalidRequestCode, "Missing Content-Length header",
          none⟩] [] ∧
    JsonRpcDispatcher.readOne ("Content-Type: text/plain\r\n\r\n".data ++ []) =
      .skipped
        [⟨JsonRpcDispatcher.invalidRequestCode, "Unexpected Content-Type header",
          none⟩] [] ∧
    JsonRpcDispatcher.readOne ("Content-Length: ".data ++ natToChars 2 ++
        "\r\n\r\n".data ++ ("[1".data ++ [])) =
      (match jsonParseFull "[1".data with
        | some j => JsonRpcDispatcher.ReadOne.yielded [] j []
        | none =>
            JsonRpcDispatcher.ReadOne.skipped
              [⟨JsonRpcDispatcher.parseErrorCode, "Could not deserialize JSON",
                some (.str "parse error")⟩] []) ∧
    JsonRpcDispatcher.readLoopStep ⟨1, [], false⟩ (.obj [("jsonrpc", .str "1.0")]) =
      .next ⟨1, [], false⟩
        [⟨JsonRpcDispatcher.invalidRequestCode, "Invalid JSON-RPC version", none⟩]
        none ∧
    JsonRpcDispatcher.readOne ("X-Header: a:b\r\n".data ++ []) = .crash ∧
    JsonRpcDispatcher.readLoopStep ⟨1, [], true⟩ (.obj [("jsonrpc", .str "2.0")]) =
      .crash ∧
    JsonRpcDispatcher.runReadLoop [] ⟨1, [], false⟩ = (some ⟨1, [], false⟩, []) :=
  ⟨c3_malformed_input_handling.1 [],
    c3_malformed_input_handling.2.1 [],
    c3_malformed_input_handling.2.2.1 2 "[1".data [] rfl,
    c3_malformed_input_handling.2.2.2.1 ⟨1, [], false⟩ [("jsonrpc", .str "1.0")] rfl,
    c3_malformed_input_handling.2.2.2.2.1 [],
    c3_malformed_input_handling.2.2.2.2.2.1 ⟨1, [], true⟩ [("jsonrpc", .str "2.0")]
      rfl rfl rfl rfl,
    c3_malformed_input_handling.2.2.2.2.2.2 ⟨1, [], false⟩⟩

end Pyrose

